import Mathlib

/-!
# DSPAPP native layer: the DFT fallback and the spectrum publisher

A shallow embedding of

* `DSP_Project_Integrated/native_dsp/kiss_fft.c` (`kiss_fft`),
* `DSP_Project_Integrated/native_dsp/native_dsp.cpp` (the JNI entry points, the worker thread
  and `write_spectrum_json`),
* `app/src/main/cpp/src/native-lib.cpp` (`dsp_apply_state_json` glue),

followed by the properties proved about them.

Conventions of the embedding.

* `float` and `double` are read as one number type `α`; the conversions between them are the
  identity there.  `kiss_fft` uses only the arithmetic operations of `α`, so it runs on an exact
  field (real arithmetic) and on `Ieee α`, which adds the infinities, not-a-number and the
  negative zero of floating-point arithmetic.  `cos`, `sin`, the constant `PI` and the stream
  formatting of a `double` are parameters of the definitions, so that every definition is
  executable on a computable instance (for example `ℚ`); the theorems about real arithmetic
  instantiate them with `Real.cos`, `Real.sin` and `Real.pi`.
* A C `for` loop is a recursive function on the loop counter whose guard is the loop test.
* A call either returns normally with the new state or ends abnormally (`Outcome`).
* Android logging (`ALOGI`, `ALOGE`) and `sleep_for` have no effect on the modelled state.
-/

namespace DspProto

/-! ## Definitions -/

/-- How a call of native code ends: it returns normally with a result, or it does not (an access
outside a buffer, a null reference handed to JNI, `std::terminate`). The code has no other way to
report a failure: every function modelled here returns `void`. -/
inductive Outcome (σ : Type) where
  | returned (s : σ) : Outcome σ
  | abnormal : Outcome σ

/-- A floating-point datum in the sense of IEEE 754, the arithmetic of C `float` and `double`:
not-a-number, an infinity with its sign, negative zero, or a finite number (`num 0` is positive
zero).  Finite results are kept exact, so rounding and overflow are outside this model; the
products with 1 and 0 and the sums with 0 that `kiss_fft` makes for `n = 1` are exact in IEEE
arithmetic as well. -/
inductive Ieee (α : Type) where
  | nan : Ieee α
  | inf (neg : Bool) : Ieee α
  | negzero : Ieee α
  | num (v : α) : Ieee α

/-- The sign bit. -/
def Ieee.isNeg {α : Type} [LinearOrderedField α] : Ieee α → Bool
  | Ieee.nan => false
  | Ieee.inf s => s
  | Ieee.negzero => true
  | Ieee.num v => decide (v < 0)

/-- Neither an infinity nor not-a-number. -/
def Ieee.isFinite {α : Type} : Ieee α → Bool
  | Ieee.negzero => true
  | Ieee.num _ => true
  | _ => false

/-- A zero of either sign. -/
def Ieee.isZero {α : Type} [LinearOrderedField α] : Ieee α → Bool
  | Ieee.negzero => true
  | Ieee.num v => decide (v = 0)
  | _ => false

/-- The number a finite datum stands for (0 for the others). -/
def Ieee.fval {α : Type} [LinearOrderedField α] : Ieee α → α
  | Ieee.num v => v
  | _ => 0

/-- The zero with the given sign bit. -/
def Ieee.zero_of {α : Type} [LinearOrderedField α] (neg : Bool) : Ieee α :=
  if neg then Ieee.negzero else Ieee.num 0

/-- Negation: flips the sign bit. -/
def Ieee.neg {α : Type} [LinearOrderedField α] : Ieee α → Ieee α
  | Ieee.nan => Ieee.nan
  | Ieee.inf s => Ieee.inf (!s)
  | Ieee.negzero => Ieee.num 0
  | Ieee.num v => if v = 0 then Ieee.negzero else Ieee.num (-v)

/-- Multiplication: infinity times zero is not-a-number, the sign of a product is the exclusive
or of the signs. -/
def Ieee.mul {α : Type} [LinearOrderedField α] (x y : Ieee α) : Ieee α :=
  match x, y with
  | Ieee.nan, _ => Ieee.nan
  | _, Ieee.nan => Ieee.nan
  | Ieee.inf s, y => if y.isZero then Ieee.nan else Ieee.inf (xor s y.isNeg)
  | x, Ieee.inf s => if x.isZero then Ieee.nan else Ieee.inf (xor x.isNeg s)
  | x, y =>
    if x.fval * y.fval = 0 then Ieee.zero_of (xor x.isNeg y.isNeg)
    else Ieee.num (x.fval * y.fval)

/-- Addition: infinities of opposite sign give not-a-number, two negative zeros give negative
zero, any other exact zero sum is positive zero (round to nearest). -/
def Ieee.add {α : Type} [LinearOrderedField α] (x y : Ieee α) : Ieee α :=
  match x, y with
  | Ieee.nan, _ => Ieee.nan
  | _, Ieee.nan => Ieee.nan
  | Ieee.inf s, Ieee.inf t => if s = t then Ieee.inf s else Ieee.nan
  | Ieee.inf s, _ => Ieee.inf s
  | _, Ieee.inf t => Ieee.inf t
  | Ieee.negzero, Ieee.negzero => Ieee.negzero
  | x, y => Ieee.num (x.fval + y.fval)

/-- Division: infinity by infinity and zero by zero are not-a-number, a nonzero number by zero is
an infinity, a finite number by an infinity is a zero. -/
def Ieee.div {α : Type} [LinearOrderedField α] (x y : Ieee α) : Ieee α :=
  match x, y with
  | Ieee.nan, _ => Ieee.nan
  | _, Ieee.nan => Ieee.nan
  | Ieee.inf _, Ieee.inf _ => Ieee.nan
  | Ieee.inf s, y => Ieee.inf (xor s y.isNeg)
  | x, Ieee.inf t => Ieee.zero_of (xor x.isNeg t)
  | x, y =>
    if y.isZero then
      if x.isZero then Ieee.nan else Ieee.inf (xor x.isNeg y.isNeg)
    else if x.fval / y.fval = 0 then Ieee.zero_of (xor x.isNeg y.isNeg)
    else Ieee.num (x.fval / y.fval)

instance {α : Type} [LinearOrderedField α] : Neg (Ieee α) := ⟨Ieee.neg⟩

instance {α : Type} [LinearOrderedField α] : Mul (Ieee α) := ⟨Ieee.mul⟩

instance {α : Type} [LinearOrderedField α] : Add (Ieee α) := ⟨Ieee.add⟩

instance {α : Type} [LinearOrderedField α] : Sub (Ieee α) := ⟨fun x y => Ieee.add x (Ieee.neg y)⟩

instance {α : Type} [LinearOrderedField α] : Div (Ieee α) := ⟨Ieee.div⟩

instance {α : Type} [LinearOrderedField α] : NatCast (Ieee α) := ⟨fun k => Ieee.num (k : α)⟩

instance {α : Type} [LinearOrderedField α] : IntCast (Ieee α) := ⟨fun n => Ieee.num (n : α)⟩

instance {α : Type} [LinearOrderedField α] : OfScientific (Ieee α) :=
  ⟨fun m s e => Ieee.num (OfScientific.ofScientific m s e : α)⟩

/-- The library `cos` on floating-point data: not-a-number at an infinity, exactly 1 at a zero of
either sign, and the given function elsewhere. -/
def Ieee.lift_cos {α : Type} [LinearOrderedField α] (cos : α → α) : Ieee α → Ieee α
  | Ieee.nan => Ieee.nan
  | Ieee.inf _ => Ieee.nan
  | Ieee.negzero => Ieee.num 1
  | Ieee.num v => if v = 0 then Ieee.num 1 else Ieee.num (cos v)

/-- The library `sin` on floating-point data: not-a-number at an infinity, the same zero at a
zero of either sign, and the given function elsewhere. -/
def Ieee.lift_sin {α : Type} [LinearOrderedField α] (sin : α → α) : Ieee α → Ieee α
  | Ieee.nan => Ieee.nan
  | Ieee.inf _ => Ieee.nan
  | Ieee.negzero => Ieee.negzero
  | Ieee.num v => if v = 0 then Ieee.num 0 else Ieee.num (sin v)

/-- The struct `kiss_fft_cpx` of `kiss_fft.h`: `typedef struct { float r,i; } kiss_fft_cpx;`. -/
structure kiss_fft_cpx (α : Type) where
  r : α
  i : α

/-- The two fields of a `kiss_fft_cpx`. -/
inductive Component where
  | re : Component
  | im : Component
deriving DecidableEq, Repr

/-- The output buffer `fout` together with the record of the field stores made into it, oldest
first. -/
structure OutBuf (α : Type) where
  cells : List (kiss_fft_cpx α)
  stores : List (Nat × Component)

/-- The store `fout[k].r = v`; outside the buffer the access is not defined. -/
def OutBuf.store_r {α : Type} (b : OutBuf α) (k : Nat) (v : α) : Outcome (OutBuf α) :=
  match b.cells[k]? with
  | none => Outcome.abnormal
  | some c => Outcome.returned ⟨b.cells.set k ⟨v, c.i⟩, b.stores ++ [(k, Component.re)]⟩

/-- The store `fout[k].i = v`; outside the buffer the access is not defined. -/
def OutBuf.store_i {α : Type} (b : OutBuf α) (k : Nat) (v : α) : Outcome (OutBuf α) :=
  match b.cells[k]? with
  | none => Outcome.abnormal
  | some c => Outcome.returned ⟨b.cells.set k ⟨c.r, v⟩, b.stores ++ [(k, Component.im)]⟩

/-- The inner loop of `kiss_fft` (kiss_fft.c lines 9-14), entered with counter `t` and
accumulators `sr`, `si`:
`for (...; t<n; t++) { angle = -2.0*PI*k*t / n; cr = cos(angle); ci = sin(angle);
sr += fin[t].r * cr - fin[t].i * ci; si += fin[t].r * ci + fin[t].i * cr; }`. -/
def kiss_fft_inner {α : Type} [Add α] [Sub α] [Mul α] [Div α] [Neg α] [NatCast α] [IntCast α]
    [OfScientific α] (PI : α) (cos sin : α → α)
    (fin : List (kiss_fft_cpx α)) (n : Int) (k : Nat) (t : Nat) (sr si : α) : Outcome (α × α) :=
  if (t : Int) < n then
    match fin[t]? with
    | none => Outcome.abnormal
    | some x =>
      let angle := -2.0 * PI * (k : α) * (t : α) / (n : α)
      let cr := cos angle
      let ci := sin angle
      kiss_fft_inner PI cos sin fin n k (t + 1)
        (sr + (x.r * cr - x.i * ci)) (si + (x.r * ci + x.i * cr))
  else Outcome.returned (sr, si)
termination_by (n - t).toNat
decreasing_by omega

/-- The outer loop of `kiss_fft` (kiss_fft.c lines 7-17), entered with counter `k`:
`for (...; k<n; k++) { double sr = 0.0, si = 0.0; <inner loop>; fout[k].r = (float)sr;
fout[k].i = (float)si; }`. -/
def kiss_fft_outer {α : Type} [Add α] [Sub α] [Mul α] [Div α] [Neg α] [NatCast α] [IntCast α]
    [OfScientific α] (PI : α) (cos sin : α → α)
    (fin : List (kiss_fft_cpx α)) (n : Int) (k : Nat) (fout : OutBuf α) : Outcome (OutBuf α) :=
  if (k : Int) < n then
    match kiss_fft_inner PI cos sin fin n k 0 0.0 0.0 with
    | Outcome.abnormal => Outcome.abnormal
    | Outcome.returned (sr, si) =>
      match fout.store_r k sr with
      | Outcome.abnormal => Outcome.abnormal
      | Outcome.returned b1 =>
        match b1.store_i k si with
        | Outcome.abnormal => Outcome.abnormal
        | Outcome.returned b2 => kiss_fft_outer PI cos sin fin n (k + 1) b2
  else Outcome.returned fout
termination_by (n - k).toNat
decreasing_by omega

/-- The function `void kiss_fft(const kiss_fft_cpx *fin, kiss_fft_cpx *fout, int n)`: the outer
loop from `k = 0` on the caller's output buffer, whose store record starts empty.  `PI` stands for
the source constant `3.14159265358979323846`, the `double` nearest to π. -/
def kiss_fft {α : Type} [Add α] [Sub α] [Mul α] [Div α] [Neg α] [NatCast α] [IntCast α]
    [OfScientific α] (PI : α) (cos sin : α → α)
    (fin fout : List (kiss_fft_cpx α)) (n : Int) : Outcome (OutBuf α) :=
  kiss_fft_outer PI cos sin fin n 0 ⟨fout, []⟩

/-- Real-part summand of bin `k` at sample `t`, as written in the inner loop body; a sample
outside the block counts as zero. -/
def term_re {α : Type} [Field α] (PI : α) (cos sin : α → α) (fin : List (kiss_fft_cpx α))
    (n : Int) (k t : Nat) : α :=
  (fin.getD t ⟨0, 0⟩).r * cos (-2.0 * PI * (k : α) * (t : α) / (n : α))
    - (fin.getD t ⟨0, 0⟩).i * sin (-2.0 * PI * (k : α) * (t : α) / (n : α))

/-- Imaginary-part summand of bin `k` at sample `t`, as written in the inner loop body; a sample
outside the block counts as zero. -/
def term_im {α : Type} [Field α] (PI : α) (cos sin : α → α) (fin : List (kiss_fft_cpx α))
    (n : Int) (k t : Nat) : α :=
  (fin.getD t ⟨0, 0⟩).r * sin (-2.0 * PI * (k : α) * (t : α) / (n : α))
    + (fin.getD t ⟨0, 0⟩).i * cos (-2.0 * PI * (k : α) * (t : α) / (n : α))

/-- Field stores the outer loop performs for bins `k .. k+d-1`, in program order. -/
def stores_from (k d : Nat) : List (Nat × Component) :=
  (List.range' k d).flatMap (fun j => [(j, Component.re), (j, Component.im)])

/-- The test block `x[t] = A·cos(2π·f·t/N + p)`, imaginary parts 0, for `t = 0 .. N-1`. -/
def sinusoid_block {α : Type} [Field α] (PI : α) (cos : α → α) (N f : Nat) (A p : α) :
    List (kiss_fft_cpx α) :=
  (List.range N).map (fun t : Nat => ⟨A * cos (2 * PI * (f : α) * (t : α) / (N : α) + p), 0⟩)

/-- A JNI `jstring` argument: `none` is the Java `null` reference. -/
abbrev jstring := Option String

/-- JNI `GetStringUTFChars(env, s, NULL)`: the characters of a string object.  For a null
reference JNI defines no result (the VM aborts the process). -/
def GetStringUTFChars (s : jstring) : Outcome String :=
  match s with
  | none => Outcome.abnormal
  | some chars => Outcome.returned chars

/-- The entry point `nativeSetInputMode` (native_dsp.cpp lines 45-51):
`m = env->GetStringUTFChars(mode, NULL); ALOGI(.., m); env->ReleaseStringUTFChars(mode, m);`. -/
def Java_org_dspproject_caraudiodsp_AudioService_nativeSetInputMode (mode : jstring) :
    Outcome Unit :=
  match GetStringUTFChars mode with
  | Outcome.abnormal => Outcome.abnormal
  | Outcome.returned _m => Outcome.returned ()

/-- The entry point `nativeLoadPresetFile` (native_dsp.cpp lines 100-107):
`path_c = env->GetStringUTFChars(jpath, NULL); std::string path(path_c); release; ALOGI`. -/
def Java_org_dspproject_caraudiodsp_AudioService_nativeLoadPresetFile (jpath : jstring) :
    Outcome Unit :=
  match GetStringUTFChars jpath with
  | Outcome.abnormal => Outcome.abnormal
  | Outcome.returned _path_c => Outcome.returned ()

/-- The entry point `dsp_apply_state_json` of native-lib.cpp (lines 19-25):
`if (json == nullptr) return; s = env->GetStringUTFChars(json, nullptr);
dsp_apply_state_json(s); release`.  The C function `dsp_apply_state_json` is only declared
(dsp_api.h); its effect on the engine state is the parameter of the same name. -/
def Java_com_example_dspa_DSPController_dsp_1apply_1state_1json {σ : Type}
    (dsp_apply_state_json : String → σ → σ) (json : jstring) (engine : σ) : Outcome σ :=
  if json = none then Outcome.returned engine
  else
    match GetStringUTFChars json with
    | Outcome.abnormal => Outcome.abnormal
    | Outcome.returned s => Outcome.returned (dsp_apply_state_json s engine)

/-- Where the control of a worker thread stands: at the test of `while (spectrum_running.load())`
or inside the loop body, before its write. -/
inductive WorkerPc where
  | at_test : WorkerPc
  | in_body : WorkerPc
deriving DecidableEq

/-- A thread running the lambda of `nativeStartSpectrum`: its identity, the `path` it captured by
value, and its control point. -/
structure Worker where
  tid : Nat
  path : String
  pc : WorkerPc

/-- The state of native_dsp.cpp: the globals `spectrum_running` and `spectrum_thread` (the handle
is `some tid` exactly when it is joinable), the threads whose lambda has not returned yet, the
number of threads created so far, and the record of completed sink writes (path, content), oldest
first. -/
structure NativeDsp where
  spectrum_running : Bool
  spectrum_thread : Option Nat
  workers : List Worker
  spawned : Nat
  sink_writes : List (String × String)

/-- The state at load time: `spectrum_running(false)`, a default-constructed `std::thread`. -/
def NativeDsp.initial : NativeDsp :=
  { spectrum_running := false, spectrum_thread := none, workers := [], spawned := 0,
    sink_writes := [] }

/-- The loop of `write_spectrum_json` (native_dsp.cpp lines 60-63), entered with index `i` and
the text `ofs` streamed so far: `for (...; i < spectrum.size(); ++i) { if (i) ofs << ", ";
ofs << spectrum[i]; }`.  `fmt` is the text `operator<<` produces for a `double`. -/
def write_elems {α : Type} (fmt : α → String) (spectrum : List α) (i : Nat) (ofs : String) :
    String :=
  if h : i < spectrum.length then
    write_elems fmt spectrum (i + 1) ((if i ≠ 0 then ofs ++ ", " else ofs) ++ fmt spectrum[i])
  else ofs
termination_by spectrum.length - i

/-- The function `write_spectrum_json` (native_dsp.cpp lines 53-66): if the stream does not open,
log and return; otherwise the file, truncated on opening, receives the opening text, the elements
and the closing text.  `openable` tells whether `std::ofstream ofs(path)` succeeds. -/
def write_spectrum_json {α : Type} (openable : String → Bool) (fmt : α → String) (path : String)
    (spectrum : List α) (sink_writes : List (String × String)) : List (String × String) :=
  if openable path then
    sink_writes ++ [(path, write_elems fmt spectrum 0 "\x7b \"spectrum\": [" ++ "] \x7d\n")]
  else sink_writes

/-- The fill loop of the worker (native_dsp.cpp line 84), entered with index `i`:
`for (...; i < spec.size(); ++i) spec[i] = sin(i*0.1) * 0.5 + 0.5;`. -/
def fill_spec {α : Type} [Field α] (sin : α → α) (spec : List α) (i : Nat) : List α :=
  if i < spec.length then
    fill_spec sin (spec.set i (sin ((i : α) * 0.1) * 0.5 + 0.5)) (i + 1)
  else spec
termination_by spec.length - i
decreasing_by simp only [List.length_set]; omega

/-- One pass of the worker's loop body (native_dsp.cpp lines 82-86):
`std::vector<double> spec(128, 0.0); <fill loop>; write_spectrum_json(path, spec); sleep_for`. -/
def spectrum_loop_body {α : Type} [Field α] (openable : String → Bool) (sin : α → α)
    (fmt : α → String) (path : String) (sink_writes : List (String × String)) :
    List (String × String) :=
  write_spectrum_json openable fmt path (fill_spec sin (List.replicate 128 0.0) 0) sink_writes

/-- Move the control point of thread `tid`. -/
def set_pc (tid : Nat) (pc : WorkerPc) (workers : List Worker) : List Worker :=
  workers.map (fun v => if v.tid == tid then { v with pc := pc } else v)

/-- One scheduling step of thread `tid` (the lambda at native_dsp.cpp lines 78-89): at the loop
test it loads the flag and enters the body, or leaves the loop and returns; in the body it runs
one pass and comes back to the test. -/
def worker_step {α : Type} [Field α] (openable : String → Bool) (sin : α → α)
    (fmt : α → String) (tid : Nat) (s : NativeDsp) : NativeDsp :=
  match s.workers.find? (fun w => w.tid == tid) with
  | none => s
  | some w =>
    match w.pc with
    | WorkerPc.at_test =>
      if s.spectrum_running then
        { s with workers := set_pc tid WorkerPc.in_body s.workers }
      else { s with workers := s.workers.filter (fun v => !(v.tid == tid)) }
    | WorkerPc.in_body =>
      { s with
        sink_writes := spectrum_loop_body openable sin fmt w.path s.sink_writes,
        workers := set_pc tid WorkerPc.at_test s.workers }

/-- The call `spectrum_thread.join()`: the caller waits while the thread of the handle runs, and
when that thread has returned the handle stops being joinable.  `fuel` bounds the number of steps
the thread is given; `none` means the thread has not returned within them. -/
def join {α : Type} [Field α] (openable : String → Bool) (sin : α → α) (fmt : α → String) :
    Nat → NativeDsp → Option NativeDsp
  | 0, s =>
    match s.spectrum_thread with
    | none => some s
    | some tid =>
      if s.workers.any (fun w => w.tid == tid) then none
      else some { s with spectrum_thread := none }
  | fuel + 1, s =>
    match s.spectrum_thread with
    | none => some s
    | some tid =>
      if s.workers.any (fun w => w.tid == tid) then
        join openable sin fmt fuel (worker_step openable sin fmt tid s)
      else some { s with spectrum_thread := none }

/-- The entry point `nativeStartSpectrum` (native_dsp.cpp lines 68-90): convert `jpath`, return
if the flag is set, else set it and move-assign a new thread, which starts at the loop test, to
`spectrum_thread` (move-assignment to a joinable `std::thread` calls `std::terminate`). -/
def Java_org_dspproject_caraudiodsp_AudioService_nativeStartSpectrum (jpath : jstring)
    (s : NativeDsp) : Outcome NativeDsp :=
  match GetStringUTFChars jpath with
  | Outcome.abnormal => Outcome.abnormal
  | Outcome.returned path =>
    if s.spectrum_running then Outcome.returned s
    else
      match s.spectrum_thread with
      | some _ => Outcome.abnormal
      | none =>
        Outcome.returned
          { s with
            spectrum_running := true,
            spectrum_thread := some s.spawned,
            workers := s.workers ++ [⟨s.spawned, path, WorkerPc.at_test⟩],
            spawned := s.spawned + 1 }

/-- The entry point `nativeStopSpectrum` (native_dsp.cpp lines 92-98):
`if (!spectrum_running.load()) return; spectrum_running.store(false);
if (spectrum_thread.joinable()) spectrum_thread.join();`. -/
def Java_org_dspproject_caraudiodsp_AudioService_nativeStopSpectrum {α : Type} [Field α]
    (openable : String → Bool) (sin : α → α) (fmt : α → String) (fuel : Nat) (s : NativeDsp) :
    Option NativeDsp :=
  if !s.spectrum_running then some s
  else
    if s.spectrum_thread.isSome then
      join openable sin fmt fuel { s with spectrum_running := false }
    else some { s with spectrum_running := false }

/-- The entry point `nativeDestroy` (native_dsp.cpp lines 23-31):
`if (spectrum_running.load()) { spectrum_running.store(false);
if (spectrum_thread.joinable()) spectrum_thread.join(); }`. -/
def Java_org_dspproject_caraudiodsp_AudioService_nativeDestroy {α : Type} [Field α]
    (openable : String → Bool) (sin : α → α) (fmt : α → String) (fuel : Nat) (s : NativeDsp) :
    Option NativeDsp :=
  if s.spectrum_running then
    if s.spectrum_thread.isSome then
      join openable sin fmt fuel { s with spectrum_running := false }
    else some { s with spectrum_running := false }
  else some s

/-- The publisher is stopped with no thread, or running with exactly the thread its handle owns. -/
def Inv (s : NativeDsp) : Prop :=
  (s.spectrum_running = false ∧ s.spectrum_thread = none ∧ s.workers = []) ∨
  (s.spectrum_running = true ∧ ∃ w : Worker, s.spectrum_thread = some w.tid ∧ s.workers = [w])

/-- The states the native layer can be in: the initial state, closed under calls of
`nativeStartSpectrum`, `nativeStopSpectrum` and `nativeDestroy` that return, made one after the
other, and under steps of the worker threads between them. -/
inductive Reachable {α : Type} [Field α] (openable : String → Bool) (sin : α → α)
    (fmt : α → String) : NativeDsp → Prop where
  | init : Reachable openable sin fmt NativeDsp.initial
  | start (s s' : NativeDsp) (jpath : jstring) :
      Reachable openable sin fmt s →
      Java_org_dspproject_caraudiodsp_AudioService_nativeStartSpectrum jpath s
        = Outcome.returned s' →
      Reachable openable sin fmt s'
  | stop (s s' : NativeDsp) (fuel : Nat) :
      Reachable openable sin fmt s →
      Java_org_dspproject_caraudiodsp_AudioService_nativeStopSpectrum openable sin fmt fuel s
        = some s' →
      Reachable openable sin fmt s'
  | destroy (s s' : NativeDsp) (fuel : Nat) :
      Reachable openable sin fmt s →
      Java_org_dspproject_caraudiodsp_AudioService_nativeDestroy openable sin fmt fuel s
        = some s' →
      Reachable openable sin fmt s'
  | worker (s : NativeDsp) (tid : Nat) :
      Reachable openable sin fmt s →
      Reachable openable sin fmt (worker_step openable sin fmt tid s)

/-- Runs that contain no start: any number of `nativeStopSpectrum` and `nativeDestroy` calls and
worker steps. -/
inductive QuietSteps {α : Type} [Field α] (openable : String → Bool) (sin : α → α)
    (fmt : α → String) : NativeDsp → NativeDsp → Prop where
  | refl (s : NativeDsp) : QuietSteps openable sin fmt s s
  | stop (s t t' : NativeDsp) (fuel : Nat) :
      QuietSteps openable sin fmt s t →
      Java_org_dspproject_caraudiodsp_AudioService_nativeStopSpectrum openable sin fmt fuel t
        = some t' →
      QuietSteps openable sin fmt s t'
  | destroy (s t t' : NativeDsp) (fuel : Nat) :
      QuietSteps openable sin fmt s t →
      Java_org_dspproject_caraudiodsp_AudioService_nativeDestroy openable sin fmt fuel t
        = some t' →
      QuietSteps openable sin fmt s t'
  | worker (s t : NativeDsp) (tid : Nat) :
      QuietSteps openable sin fmt s t →
      QuietSteps openable sin fmt s (worker_step openable sin fmt tid t)


/-! ## The transform: loop lemmas -/

section transform

variable {α : Type} [Field α]

theorem kiss_fft_inner_eq (PI : α) (cos sin : α → α) (fin : List (kiss_fft_cpx α)) (n : Int)
    (k : Nat) (hlen : n.toNat ≤ fin.length) :
    ∀ (d t : Nat) (sr si : α), d + t = n.toNat →
      kiss_fft_inner PI cos sin fin n k t sr si =
        Outcome.returned
          (sr + ∑ j in Finset.Ico t n.toNat, term_re PI cos sin fin n k j,
           si + ∑ j in Finset.Ico t n.toNat, term_im PI cos sin fin n k j) := by
  intro d
  induction d with
  | zero =>
    intro t sr si h
    rw [kiss_fft_inner]
    have hlt : ¬ ((t : Int) < n) := by omega
    have ht : t = n.toNat := by omega
    simp [hlt, ht]
  | succ d ih =>
    intro t sr si h
    rw [kiss_fft_inner]
    have hlt : (t : Int) < n := by omega
    have htl : t < fin.length := by omega
    have htN : t < n.toNat := by omega
    simp only [hlt, if_true, List.getElem?_eq_getElem htl]
    rw [ih (t + 1) _ _ (by omega)]
    rw [Finset.sum_eq_sum_Ico_succ_bot htN, Finset.sum_eq_sum_Ico_succ_bot htN]
    simp only [term_re, term_im, List.getD_eq_getElem _ _ htl, add_assoc]

theorem stores_from_succ (k d : Nat) :
    stores_from k (d + 1) = [(k, Component.re), (k, Component.im)] ++ stores_from (k + 1) d := by
  simp [stores_from, List.range'_succ]

theorem kiss_fft_outer_eq (PI : α) (cos sin : α → α) (fin : List (kiss_fft_cpx α)) (n : Int)
    (hlen : n.toNat ≤ fin.length) :
    ∀ (d k : Nat) (buf : OutBuf α), d + k = n.toNat → n.toNat ≤ buf.cells.length →
      ∃ out : OutBuf α,
        kiss_fft_outer PI cos sin fin n k buf = Outcome.returned out ∧
        out.cells.length = buf.cells.length ∧
        out.stores = buf.stores ++ stores_from k d ∧
        ∀ j : Nat, out.cells[j]? =
          if k ≤ j ∧ j < n.toNat then
            some ⟨∑ t in Finset.range n.toNat, term_re PI cos sin fin n j t,
                  ∑ t in Finset.range n.toNat, term_im PI cos sin fin n j t⟩
          else buf.cells[j]? := by
  intro d
  induction d with
  | zero =>
    intro k buf h hb
    refine ⟨buf, ?_, rfl, ?_, ?_⟩
    · rw [kiss_fft_outer]
      have hlt : ¬ ((k : Int) < n) := by omega
      simp [hlt]
    · simp [stores_from]
    · intro j
      have : ¬ (k ≤ j ∧ j < n.toNat) := by omega
      rw [if_neg this]
  | succ d ih =>
    intro k buf h hb
    have hlt : (k : Int) < n := by omega
    have hkl : k < buf.cells.length := by omega
    obtain ⟨out, hout, hlen', hst, hcells⟩ :=
      ih (k + 1)
        ⟨(buf.cells.set k
            ⟨∑ t in Finset.range n.toNat, term_re PI cos sin fin n k t, (buf.cells[k]).i⟩).set k
            ⟨∑ t in Finset.range n.toNat, term_re PI cos sin fin n k t,
             ∑ t in Finset.range n.toNat, term_im PI cos sin fin n k t⟩,
          buf.stores ++ [(k, Component.re)] ++ [(k, Component.im)]⟩
        (by omega) (by simpa using hb)
    refine ⟨out, ?_, ?_, ?_, ?_⟩
    · rw [kiss_fft_outer]
      simp only [hlt, if_true]
      rw [kiss_fft_inner_eq PI cos sin fin n k hlen n.toNat 0 _ _ (by omega)]
      simp only [OutBuf.store_r, OutBuf.store_i, List.getElem?_eq_getElem hkl]
      have hkl2 : k < (buf.cells.set k
          ⟨(0.0 : α) + ∑ j in Finset.Ico 0 n.toNat, term_re PI cos sin fin n k j,
            (buf.cells[k]).i⟩).length := by simpa using hkl
      simp only [List.getElem?_eq_getElem hkl2, List.getElem_set_self]
      rw [← hout]
      have h0 : (0.0 : α) = 0 := by norm_num
      simp only [h0, zero_add, Finset.range_eq_Ico]
    · simpa using hlen'
    · rw [hst, stores_from_succ]
      simp [List.append_assoc]
    · intro j
      rw [hcells j]
      by_cases hjk : j = k
      · subst hjk
        have h1 : ¬ (j + 1 ≤ j ∧ j < n.toNat) := by omega
        have h2 : j ≤ j ∧ j < n.toNat := by omega
        rw [if_neg h1, if_pos h2]
        simp [hkl]
      · by_cases hj : k + 1 ≤ j ∧ j < n.toNat
        · have h2 : k ≤ j ∧ j < n.toNat := by omega
          rw [if_pos hj, if_pos h2]
        · have h2 : ¬ (k ≤ j ∧ j < n.toNat) := by omega
          have hkj : k ≠ j := fun e => hjk e.symm
          rw [if_neg hj, if_neg h2]
          simp [List.getElem?_set_ne hkj]

theorem stores_from_count (j : Nat) (c : Component) :
    ∀ (d k : Nat), (stores_from k d).count (j, c) = if k ≤ j ∧ j < k + d then 1 else 0 := by
  intro d
  induction d with
  | zero =>
    intro k
    have : ¬ (k ≤ j ∧ j < k + 0) := by omega
    rw [if_neg this]
    simp [stores_from]
  | succ d ih =>
    intro k
    rw [stores_from_succ, List.count_append, ih (k + 1)]
    by_cases hjk : j = k
    · subst hjk
      have h1 : ¬ (j + 1 ≤ j ∧ j < j + 1 + d) := by omega
      have h2 : j ≤ j ∧ j < j + (d + 1) := by omega
      rw [if_neg h1, if_pos h2]
      cases c <;> simp [List.count_cons]
    · have hne : ∀ c' : Component, ((k, c') == (j, c)) = false := by
        intro c'
        simp
        intro e
        exact absurd e.symm hjk
      have h0 : List.count (j, c) [(k, Component.re), (k, Component.im)] = 0 := by
        simp [List.count_cons, hne]
      rw [h0, zero_add]
      by_cases h1 : k + 1 ≤ j ∧ j < k + 1 + d
      · have h2 : k ≤ j ∧ j < k + (d + 1) := by omega
        rw [if_pos h1, if_pos h2]
      · have h2 : ¬ (k ≤ j ∧ j < k + (d + 1)) := by omega
        rw [if_neg h1, if_neg h2]

/-- What a call returns when both buffers hold at least `n` elements. -/
theorem kiss_fft_eq (PI : α) (cos sin : α → α) (fin fout : List (kiss_fft_cpx α)) (n : Int)
    (hin : n.toNat ≤ fin.length) (hout : n.toNat ≤ fout.length) :
    ∃ out : OutBuf α,
      kiss_fft PI cos sin fin fout n = Outcome.returned out ∧
      out.cells.length = fout.length ∧
      out.stores = stores_from 0 n.toNat ∧
      ∀ j : Nat, out.cells[j]? =
        if j < n.toNat then
          some ⟨∑ t in Finset.range n.toNat, term_re PI cos sin fin n j t,
                ∑ t in Finset.range n.toNat, term_im PI cos sin fin n j t⟩
        else fout[j]? := by
  obtain ⟨out, h1, h2, h3, h4⟩ :=
    kiss_fft_outer_eq PI cos sin fin n hin n.toNat 0 ⟨fout, []⟩ (by omega) hout
  refine ⟨out, h1, h2, by simpa using h3, ?_⟩
  intro j
  rw [h4 j]
  by_cases hj : j < n.toNat
  · rw [if_pos hj, if_pos ⟨Nat.zero_le j, hj⟩]
  · have : ¬ (0 ≤ j ∧ j < n.toNat) := fun h => hj h.2
    rw [if_neg hj, if_neg this]

/-- With `n ≤ 0` the outer loop body never runs. -/
theorem kiss_fft_nonpos (PI : α) (cos sin : α → α) (fin fout : List (kiss_fft_cpx α)) (n : Int)
    (hn : n ≤ 0) : kiss_fft PI cos sin fin fout n = Outcome.returned ⟨fout, []⟩ := by
  unfold kiss_fft
  rw [kiss_fft_outer]
  have : ¬ (((0 : Nat) : Int) < n) := by omega
  rw [if_neg this]

/-! ## The transform: output shape and the all-zero block -/

/-- C4: for every n ≥ 1 and every pair of buffers of length n, the call returns, the output holds
exactly n bins (as many as the input), and every field of every output index 0..n-1 is stored
exactly once while no index outside that range is stored at all. -/
theorem kiss_fft_output_length (PI : α) (cos sin : α → α) (n : Int) (_hn : 1 ≤ n)
    (fin fout : List (kiss_fft_cpx α)) (hin : fin.length = n.toNat)
    (hout : fout.length = n.toNat) :
    ∃ out : OutBuf α,
      kiss_fft PI cos sin fin fout n = Outcome.returned out ∧
      out.cells.length = n.toNat ∧ out.cells.length = fin.length ∧
      out.stores = (List.range n.toNat).flatMap
        (fun j => [(j, Component.re), (j, Component.im)]) ∧
      ∀ (j : Nat) (c : Component), out.stores.count (j, c) = if j < n.toNat then 1 else 0 := by
  obtain ⟨out, h1, h2, h3, -⟩ :=
    kiss_fft_eq PI cos sin fin fout n (le_of_eq hin.symm) (le_of_eq hout.symm)
  refine ⟨out, h1, by omega, by omega, ?_, ?_⟩
  · rw [h3, stores_from, List.range_eq_range']
  · intro j c
    rw [h3, stores_from_count j c n.toNat 0]
    by_cases hj : j < n.toNat
    · rw [if_pos hj, if_pos (by omega)]
    · rw [if_neg hj, if_neg (by omega)]

theorem kiss_fft_output_length_witness :
    (1 : Int) ≤ 2 ∧
    ∃ out : OutBuf ℚ,
      kiss_fft (3 : ℚ) (fun a => 1 - a * a / 2) (fun a => a)
        [⟨1, 0⟩, ⟨0, 1⟩] [⟨0, 0⟩, ⟨0, 0⟩] 2 = Outcome.returned out ∧
      out.cells.length = (2 : Int).toNat ∧
      out.cells.length = ([⟨1, 0⟩, ⟨0, 1⟩] : List (kiss_fft_cpx ℚ)).length ∧
      out.stores = (List.range (2 : Int).toNat).flatMap
        (fun j => [(j, Component.re), (j, Component.im)]) ∧
      ∀ (j : Nat) (c : Component),
        out.stores.count (j, c) = if j < (2 : Int).toNat then 1 else 0 :=
  ⟨by decide, kiss_fft_output_length (3 : ℚ) (fun a => 1 - a * a / 2) (fun a => a) 2 (by decide)
    [⟨1, 0⟩, ⟨0, 1⟩] [⟨0, 0⟩, ⟨0, 0⟩] rfl rfl⟩

/-- C10: for every n ≥ 1, the transform of the block of n samples with real and imaginary part 0
is the spectrum whose n bins all have real and imaginary part 0. -/
theorem kiss_fft_zero_block (PI : α) (cos sin : α → α) (n : Int) (_hn : 1 ≤ n)
    (fout : List (kiss_fft_cpx α)) (hout : fout.length = n.toNat) :
    ∃ out : OutBuf α,
      kiss_fft PI cos sin (List.replicate n.toNat ⟨0, 0⟩) fout n = Outcome.returned out ∧
      out.cells = List.replicate n.toNat ⟨0, 0⟩ := by
  obtain ⟨out, h1, h2, -, h4⟩ :=
    kiss_fft_eq PI cos sin (List.replicate n.toNat ⟨0, 0⟩) fout n (by simp) (le_of_eq hout.symm)
  refine ⟨out, h1, ?_⟩
  apply List.ext_getElem?
  intro j
  rw [h4 j]
  by_cases hj : j < n.toNat
  · rw [if_pos hj]
    have hre : ∀ t, term_re PI cos sin (List.replicate n.toNat (⟨0, 0⟩ : kiss_fft_cpx α)) n j t
        = 0 := by
      intro t
      by_cases ht : t < n.toNat <;> simp [term_re, List.getD_eq_getElem?_getD, List.getElem?_replicate, ht]
    have him : ∀ t, term_im PI cos sin (List.replicate n.toNat (⟨0, 0⟩ : kiss_fft_cpx α)) n j t
        = 0 := by
      intro t
      by_cases ht : t < n.toNat <;> simp [term_im, List.getD_eq_getElem?_getD, List.getElem?_replicate, ht]
    simp only [hre, him, Finset.sum_const_zero]
    simp [List.getElem?_replicate, hj]
  · rw [if_neg hj]
    have h5 : fout.length ≤ j := by omega
    simp [List.getElem?_replicate, hj, List.getElem?_eq_none h5]

theorem kiss_fft_zero_block_witness :
    (1 : Int) ≤ 3 ∧
    ∃ out : OutBuf ℚ,
      kiss_fft (3 : ℚ) (fun a => 1 - a * a / 2) (fun a => a)
        (List.replicate (3 : Int).toNat ⟨0, 0⟩) [⟨5, 6⟩, ⟨7, 8⟩, ⟨9, 10⟩] 3
          = Outcome.returned out ∧
      out.cells = List.replicate (3 : Int).toNat ⟨0, 0⟩ :=
  ⟨by decide, kiss_fft_zero_block (3 : ℚ) (fun a => 1 - a * a / 2) (fun a => a) 3 (by decide)
    [⟨5, 6⟩, ⟨7, 8⟩, ⟨9, 10⟩] rfl⟩

end transform

/-! ## The transform over the reals -/

/-- With one sample wanted, the first input sample is copied to the first output cell, whatever
follows it in either buffer. -/
theorem kiss_fft_one (PI : ℝ) (x y : kiss_fft_cpx ℝ) (xs ys : List (kiss_fft_cpx ℝ)) :
    kiss_fft PI Real.cos Real.sin (x :: xs) (y :: ys) 1 =
      Outcome.returned ⟨⟨x.r, x.i⟩ :: ys, [(0, Component.re), (0, Component.im)]⟩ := by
  have hin : ∀ (sr si : ℝ), kiss_fft_inner PI Real.cos Real.sin (x :: xs) 1 0 1 sr si
      = Outcome.returned (sr, si) := by
    intro sr si
    rw [kiss_fft_inner]
    simp
  have hout : ∀ b : OutBuf ℝ, kiss_fft_outer PI Real.cos Real.sin (x :: xs) 1 1 b
      = Outcome.returned b := by
    intro b
    rw [kiss_fft_outer]
    simp
  unfold kiss_fft
  rw [kiss_fft_outer]
  simp only [Nat.cast_zero, zero_lt_one, if_true]
  rw [kiss_fft_inner]
  simp only [Nat.cast_zero, zero_lt_one, if_true, List.getElem?_cons_zero, zero_add, hin,
    OutBuf.store_r, OutBuf.store_i, List.set_cons_zero, hout]
  norm_num

/-- C3, as stated, fails: with n = 0 and with n = -1 the call returns normally and leaves the
output buffer as it was, and a call whose input holds two samples and whose output holds one
returns normally with n = 1. -/
theorem kiss_fft_returns_without_error :
    kiss_fft Real.pi Real.cos Real.sin [] [] 0 = Outcome.returned ⟨[], []⟩ ∧
    kiss_fft Real.pi Real.cos Real.sin [⟨1, 0⟩] [⟨7, 7⟩] (-1)
      = Outcome.returned ⟨[⟨7, 7⟩], []⟩ ∧
    kiss_fft Real.pi Real.cos Real.sin [⟨1, 2⟩, ⟨3, 4⟩] [⟨0, 0⟩] 1
      = Outcome.returned ⟨[⟨1, 2⟩], [(0, Component.re), (0, Component.im)]⟩ :=
  ⟨kiss_fft_nonpos Real.pi Real.cos Real.sin [] [] 0 (le_refl 0),
   kiss_fft_nonpos Real.pi Real.cos Real.sin [⟨1, 0⟩] [⟨7, 7⟩] (-1) (by decide),
   kiss_fft_one Real.pi ⟨1, 2⟩ ⟨0, 0⟩ [⟨3, 4⟩] []⟩

/-- C3, amended: for every n ≤ 0 and any two buffers, of equal length or not, the call returns
normally, makes no store and leaves the output buffer unchanged. -/
theorem kiss_fft_nonpositive_length {α : Type} [Field α] (PI : α) (cos sin : α → α)
    (fin fout : List (kiss_fft_cpx α)) (n : Int) (hn : n ≤ 0) :
    kiss_fft PI cos sin fin fout n = Outcome.returned ⟨fout, []⟩ :=
  kiss_fft_nonpos PI cos sin fin fout n hn

theorem kiss_fft_nonpositive_length_witness :
    (-3 : Int) ≤ 0 ∧
    kiss_fft (3 : ℚ) (fun a => 1 - a * a / 2) (fun a => a) [⟨1, 2⟩] [⟨5, 6⟩, ⟨7, 8⟩] (-3)
      = Outcome.returned ⟨[⟨5, 6⟩, ⟨7, 8⟩], []⟩ :=
  ⟨by decide, kiss_fft_nonpositive_length (3 : ℚ) (fun a => 1 - a * a / 2) (fun a => a)
    [⟨1, 2⟩] [⟨5, 6⟩, ⟨7, 8⟩] (-3) (by decide)⟩

theorem neg_two_lit : (-2.0 : ℝ) = -2 := by norm_num

/-- The pair of sums a bin holds is the complex sum of samples times twiddle factors. -/
theorem term_sum_complex (fin : List (kiss_fft_cpx ℝ)) (n : Int) (k N : Nat) :
    (⟨∑ t in Finset.range N, term_re Real.pi Real.cos Real.sin fin n k t,
      ∑ t in Finset.range N, term_im Real.pi Real.cos Real.sin fin n k t⟩ : ℂ) =
    ∑ t in Finset.range N,
      (⟨(fin.getD t ⟨0, 0⟩).r, (fin.getD t ⟨0, 0⟩).i⟩ : ℂ) *
        Complex.exp (-2 * (Real.pi : ℂ) * Complex.I * (k : ℂ) * (t : ℂ) / (n : ℂ)) := by
  have hexp : ∀ t : Nat,
      Complex.exp (-2 * (Real.pi : ℂ) * Complex.I * (k : ℂ) * (t : ℂ) / (n : ℂ)) =
        Complex.exp (((-2 * Real.pi * (k : ℝ) * (t : ℝ) / (n : ℝ) : ℝ) : ℂ) * Complex.I) := by
    intro t
    congr 1
    push_cast
    ring
  apply Complex.ext
  · simp only [Complex.re_sum, Complex.mul_re, hexp, Complex.exp_ofReal_mul_I_re,
      Complex.exp_ofReal_mul_I_im, term_re, neg_two_lit]
  · simp only [Complex.im_sum, Complex.mul_im, hexp, Complex.exp_ofReal_mul_I_re,
      Complex.exp_ofReal_mul_I_im, term_im, neg_two_lit]

/-- C1: for every n ≥ 1, every sample block of length n and every bin k in 0..n-1, the call
returns with out[k].r = Σ_t (x[t].r·cos a − x[t].i·sin a) and out[k].i = Σ_t (x[t].r·sin a +
x[t].i·cos a), a = −2πkt/n, that is out[k] = Σ_t x[t]·e^(−2πi·k·t/n), over the reals. -/
theorem kiss_fft_is_dft (n : Int) (_hn : 1 ≤ n) (fin fout : List (kiss_fft_cpx ℝ))
    (hin : fin.length = n.toNat) (hout : fout.length = n.toNat) :
    ∃ out : OutBuf ℝ,
      kiss_fft Real.pi Real.cos Real.sin fin fout n = Outcome.returned out ∧
      ∀ k : Nat, k < n.toNat → ∃ X : kiss_fft_cpx ℝ,
        out.cells[k]? = some X ∧
        X.r = ∑ t in Finset.range n.toNat,
          ((fin.getD t ⟨0, 0⟩).r * Real.cos (-2 * Real.pi * k * t / n)
            - (fin.getD t ⟨0, 0⟩).i * Real.sin (-2 * Real.pi * k * t / n)) ∧
        X.i = ∑ t in Finset.range n.toNat,
          ((fin.getD t ⟨0, 0⟩).r * Real.sin (-2 * Real.pi * k * t / n)
            + (fin.getD t ⟨0, 0⟩).i * Real.cos (-2 * Real.pi * k * t / n)) ∧
        (⟨X.r, X.i⟩ : ℂ) = ∑ t in Finset.range n.toNat,
          (⟨(fin.getD t ⟨0, 0⟩).r, (fin.getD t ⟨0, 0⟩).i⟩ : ℂ) *
            Complex.exp (-2 * (Real.pi : ℂ) * Complex.I * (k : ℂ) * (t : ℂ) / (n : ℂ)) := by
  obtain ⟨out, h1, -, -, h4⟩ :=
    kiss_fft_eq Real.pi Real.cos Real.sin fin fout n (le_of_eq hin.symm) (le_of_eq hout.symm)
  refine ⟨out, h1, ?_⟩
  intro k hk
  refine ⟨_, by rw [h4 k, if_pos hk], ?_, ?_, ?_⟩
  · simp only [term_re, neg_two_lit]
  · simp only [term_im, neg_two_lit]
  · exact term_sum_complex fin n k n.toNat

theorem kiss_fft_is_dft_witness :
    (1 : Int) ≤ 2 ∧
    ∃ out : OutBuf ℝ,
      kiss_fft Real.pi Real.cos Real.sin [⟨1, 0⟩, ⟨0, 1⟩] [⟨0, 0⟩, ⟨0, 0⟩] 2
        = Outcome.returned out ∧
      ∀ k : Nat, k < (2 : Int).toNat → ∃ X : kiss_fft_cpx ℝ,
        out.cells[k]? = some X ∧
        X.r = ∑ t in Finset.range (2 : Int).toNat,
          ((([⟨1, 0⟩, ⟨0, 1⟩] : List (kiss_fft_cpx ℝ)).getD t ⟨0, 0⟩).r
              * Real.cos (-2 * Real.pi * k * t / (2 : Int))
            - (([⟨1, 0⟩, ⟨0, 1⟩] : List (kiss_fft_cpx ℝ)).getD t ⟨0, 0⟩).i
              * Real.sin (-2 * Real.pi * k * t / (2 : Int))) ∧
        X.i = ∑ t in Finset.range (2 : Int).toNat,
          ((([⟨1, 0⟩, ⟨0, 1⟩] : List (kiss_fft_cpx ℝ)).getD t ⟨0, 0⟩).r
              * Real.sin (-2 * Real.pi * k * t / (2 : Int))
            + (([⟨1, 0⟩, ⟨0, 1⟩] : List (kiss_fft_cpx ℝ)).getD t ⟨0, 0⟩).i
              * Real.cos (-2 * Real.pi * k * t / (2 : Int))) ∧
        (⟨X.r, X.i⟩ : ℂ) = ∑ t in Finset.range (2 : Int).toNat,
          (⟨(([⟨1, 0⟩, ⟨0, 1⟩] : List (kiss_fft_cpx ℝ)).getD t ⟨0, 0⟩).r,
            (([⟨1, 0⟩, ⟨0, 1⟩] : List (kiss_fft_cpx ℝ)).getD t ⟨0, 0⟩).i⟩ : ℂ) *
            Complex.exp (-2 * (Real.pi : ℂ) * Complex.I * (k : ℂ) * (t : ℂ)
              / (((2 : Int) : ℤ) : ℂ)) :=
  ⟨by decide, kiss_fft_is_dft 2 (by decide) [⟨1, 0⟩, ⟨0, 1⟩] [⟨0, 0⟩, ⟨0, 0⟩] rfl rfl⟩

/-- Sum of the `m`-th powers of the `N`-th roots of unity. -/
theorem root_sum (N : Nat) (hN : 0 < N) (m : ℤ) :
    ∑ t in Finset.range N,
        Complex.exp (2 * (Real.pi : ℂ) * Complex.I * (m : ℂ) * (t : ℂ) / (N : ℂ)) =
      if (N : ℤ) ∣ m then (N : ℂ) else 0 := by
  have hN' : (N : ℂ) ≠ 0 := by exact_mod_cast hN.ne'
  have h2pi : (2 * (Real.pi : ℂ) * Complex.I) ≠ 0 := by
    simp [Real.pi_ne_zero, Complex.I_ne_zero]
  have hpow : ∀ t : Nat,
      Complex.exp (2 * (Real.pi : ℂ) * Complex.I * (m : ℂ) * (t : ℂ) / (N : ℂ)) =
        Complex.exp (2 * (Real.pi : ℂ) * Complex.I * (m : ℂ) / (N : ℂ)) ^ t := by
    intro t
    rw [← Complex.exp_nat_mul]
    congr 1
    ring
  simp only [hpow]
  by_cases hd : (N : ℤ) ∣ m
  · rw [if_pos hd]
    obtain ⟨q, rfl⟩ := hd
    have hw : Complex.exp (2 * (Real.pi : ℂ) * Complex.I * (((N : ℤ) * q : ℤ) : ℂ) / (N : ℂ))
        = 1 := by
      rw [Complex.exp_eq_one_iff]
      refine ⟨q, ?_⟩
      push_cast
      field_simp
      ring
    rw [hw]
    simp
  · rw [if_neg hd]
    have hw1 : Complex.exp (2 * (Real.pi : ℂ) * Complex.I * (m : ℂ) / (N : ℂ)) ≠ 1 := by
      intro h
      rw [Complex.exp_eq_one_iff] at h
      obtain ⟨q, hq⟩ := h
      apply hd
      refine ⟨q, ?_⟩
      have h3 : (2 * (Real.pi : ℂ) * Complex.I) * (m : ℂ)
          = (2 * (Real.pi : ℂ) * Complex.I) * ((N : ℂ) * (q : ℂ)) := by
        field_simp at hq
        linear_combination hq
      have h4 : (m : ℂ) = (N : ℂ) * (q : ℂ) := mul_left_cancel₀ h2pi h3
      exact_mod_cast h4
    have hwN : Complex.exp (2 * (Real.pi : ℂ) * Complex.I * (m : ℂ) / (N : ℂ)) ^ N = 1 := by
      rw [← Complex.exp_nat_mul, Complex.exp_eq_one_iff]
      refine ⟨m, ?_⟩
      field_simp
      ring
    rw [geom_sum_eq hw1, hwN, sub_self, zero_div]

theorem sinusoid_block_getD (N f : Nat) (A p : ℝ) (t : Nat) (ht : t < N) :
    (sinusoid_block Real.pi Real.cos N f A p).getD t ⟨0, 0⟩ =
      ⟨A * Real.cos (2 * Real.pi * (f : ℝ) * (t : ℝ) / (N : ℝ) + p), 0⟩ := by
  simp [sinusoid_block, List.getD_eq_getElem?_getD, List.getElem?_map, List.getElem?_range ht]

theorem sinusoid_bin (N f k : Nat) (hN : 0 < N) (A p : ℝ) :
    (⟨∑ t in Finset.range N,
        term_re Real.pi Real.cos Real.sin (sinusoid_block Real.pi Real.cos N f A p) (N : Int) k t,
      ∑ t in Finset.range N,
        term_im Real.pi Real.cos Real.sin (sinusoid_block Real.pi Real.cos N f A p) (N : Int) k t⟩
        : ℂ) =
    ((A : ℂ) / 2) *
      (Complex.exp ((p : ℂ) * Complex.I) *
          (∑ t in Finset.range N, Complex.exp
            (2 * (Real.pi : ℂ) * Complex.I * (((f : ℤ) - (k : ℤ) : ℤ) : ℂ) * (t : ℂ) / (N : ℂ)))
        + Complex.exp (-((p : ℂ) * Complex.I)) *
          (∑ t in Finset.range N, Complex.exp
            (2 * (Real.pi : ℂ) * Complex.I * ((-((f : ℤ) + (k : ℤ)) : ℤ) : ℂ) * (t : ℂ)
              / (N : ℂ)))) := by
  have hN' : (N : ℂ) ≠ 0 := by exact_mod_cast hN.ne'
  rw [term_sum_complex, Finset.mul_sum, Finset.mul_sum, mul_add, Finset.mul_sum, Finset.mul_sum,
    ← Finset.sum_add_distrib]
  apply Finset.sum_congr rfl
  intro t ht
  rw [sinusoid_block_getD N f A p t (Finset.mem_range.mp ht)]
  have hcpx : (⟨A * Real.cos (2 * Real.pi * (f : ℝ) * (t : ℝ) / (N : ℝ) + p), 0⟩ : ℂ)
      = (A : ℂ) * Complex.cos ((2 * Real.pi * (f : ℝ) * (t : ℝ) / (N : ℝ) + p : ℝ) : ℂ) := by
    rw [← Complex.ofReal_cos, ← Complex.ofReal_mul]
    rfl
  rw [hcpx, Complex.cos]
  have h1 : Complex.exp (((2 * Real.pi * (f : ℝ) * (t : ℝ) / (N : ℝ) + p : ℝ) : ℂ) * Complex.I) *
        Complex.exp (-2 * (Real.pi : ℂ) * Complex.I * (k : ℂ) * (t : ℂ) / (((N : ℤ)) : ℂ))
      = Complex.exp ((p : ℂ) * Complex.I) * Complex.exp
          (2 * (Real.pi : ℂ) * Complex.I * (((f : ℤ) - (k : ℤ) : ℤ) : ℂ) * (t : ℂ) / (N : ℂ)) := by
    rw [← Complex.exp_add, ← Complex.exp_add]
    congr 1
    push_cast
    field_simp
    ring
  have h2 : Complex.exp (-(((2 * Real.pi * (f : ℝ) * (t : ℝ) / (N : ℝ) + p : ℝ) : ℂ))
          * Complex.I) *
        Complex.exp (-2 * (Real.pi : ℂ) * Complex.I * (k : ℂ) * (t : ℂ) / (((N : ℤ)) : ℂ))
      = Complex.exp (-((p : ℂ) * Complex.I)) * Complex.exp
          (2 * (Real.pi : ℂ) * Complex.I * ((-((f : ℤ) + (k : ℤ)) : ℤ) : ℂ) * (t : ℂ)
            / (N : ℂ)) := by
    rw [← Complex.exp_add, ← Complex.exp_add]
    congr 1
    push_cast
    field_simp
    ring
  linear_combination ((A : ℂ) / 2) * h1 + ((A : ℂ) / 2) * h2

theorem dvd_small (N : Nat) (m : ℤ) (h1 : -(N : ℤ) < m) (h2 : m < (N : ℤ))
    (hd : (N : ℤ) ∣ m) : m = 0 :=
  Int.eq_zero_of_abs_lt_dvd hd (abs_lt.mpr ⟨h1, h2⟩)

theorem sinusoid_bin_peak (N f : Nat) (hf1 : 1 ≤ f) (hf2 : 2 * f < N) (A p : ℝ) :
    (⟨∑ t in Finset.range N,
        term_re Real.pi Real.cos Real.sin (sinusoid_block Real.pi Real.cos N f A p) (N : Int) f t,
      ∑ t in Finset.range N,
        term_im Real.pi Real.cos Real.sin (sinusoid_block Real.pi Real.cos N f A p) (N : Int) f t⟩
        : ℂ) = ((A : ℂ) / 2) * (Complex.exp ((p : ℂ) * Complex.I) * (N : ℂ)) := by
  rw [sinusoid_bin N f f (by omega) A p, root_sum N (by omega), root_sum N (by omega)]
  have h1 : (N : ℤ) ∣ ((f : ℤ) - (f : ℤ)) := by simp
  have h2 : ¬ ((N : ℤ) ∣ -((f : ℤ) + (f : ℤ))) := by
    intro hd
    have := dvd_small N _ (by omega) (by omega) hd
    omega
  rw [if_pos h1, if_neg h2]
  ring

theorem sinusoid_bin_mirror (N f : Nat) (hf1 : 1 ≤ f) (hf2 : 2 * f < N) (A p : ℝ) :
    (⟨∑ t in Finset.range N,
        term_re Real.pi Real.cos Real.sin (sinusoid_block Real.pi Real.cos N f A p) (N : Int)
          (N - f) t,
      ∑ t in Finset.range N,
        term_im Real.pi Real.cos Real.sin (sinusoid_block Real.pi Real.cos N f A p) (N : Int)
          (N - f) t⟩
        : ℂ) = ((A : ℂ) / 2) * (Complex.exp (-((p : ℂ) * Complex.I)) * (N : ℂ)) := by
  rw [sinusoid_bin N f (N - f) (by omega) A p, root_sum N (by omega), root_sum N (by omega)]
  have hc : ((N - f : Nat) : ℤ) = (N : ℤ) - (f : ℤ) := by omega
  have h1 : ¬ ((N : ℤ) ∣ ((f : ℤ) - ((N - f : Nat) : ℤ))) := by
    intro hd
    have := dvd_small N _ (by omega) (by omega) hd
    omega
  have h2 : (N : ℤ) ∣ -((f : ℤ) + ((N - f : Nat) : ℤ)) := by
    rw [hc]
    exact ⟨-1, by ring⟩
  rw [if_neg h1, if_pos h2]
  ring

theorem sinusoid_bin_other (N f k : Nat) (hf1 : 1 ≤ f) (hf2 : 2 * f < N) (hk : k < N)
    (hkf : k ≠ f) (hkc : k ≠ N - f) (A p : ℝ) :
    (⟨∑ t in Finset.range N,
        term_re Real.pi Real.cos Real.sin (sinusoid_block Real.pi Real.cos N f A p) (N : Int) k t,
      ∑ t in Finset.range N,
        term_im Real.pi Real.cos Real.sin (sinusoid_block Real.pi Real.cos N f A p) (N : Int) k t⟩
        : ℂ) = 0 := by
  rw [sinusoid_bin N f k (by omega) A p, root_sum N (by omega), root_sum N (by omega)]
  have h1 : ¬ ((N : ℤ) ∣ ((f : ℤ) - (k : ℤ))) := by
    intro hd
    have := dvd_small N _ (by omega) (by omega) hd
    omega
  have h2 : ¬ ((N : ℤ) ∣ -((f : ℤ) + (k : ℤ))) := by
    intro hd
    have hd2 : (N : ℤ) ∣ ((N : ℤ) - ((f : ℤ) + (k : ℤ))) := by
      have := dvd_add (dvd_refl (N : ℤ)) hd
      simpa [sub_eq_add_neg] using this
    have := dvd_small N _ (by omega) (by omega) hd2
    omega
  rw [if_neg h1, if_neg h2]
  ring

theorem sqrt_sq_add_sq (a b : ℝ) : Real.sqrt (a ^ 2 + b ^ 2) = Complex.abs ⟨a, b⟩ := by
  rw [Complex.abs_apply, Complex.normSq_mk, pow_two, pow_two]

/-- C2: for every N ≥ 2, integer f with 1 ≤ f < N/2, amplitude A ≠ 0 and phase p, the transform
of the real block x[t] = A·cos(2π·f·t/N + p) has, over the reals, magnitude |A|·N/2 at bins f and
N−f, and every other bin is 0, hence of strictly smaller magnitude. -/
theorem kiss_fft_sinusoid_peaks (N f : Nat) (_hN : 2 ≤ N) (hf1 : 1 ≤ f) (hf2 : 2 * f < N)
    (A p : ℝ) (hA : A ≠ 0) (fout : List (kiss_fft_cpx ℝ)) (hout : fout.length = N) :
    ∃ (out : OutBuf ℝ) (Xf Xc : kiss_fft_cpx ℝ),
      kiss_fft Real.pi Real.cos Real.sin (sinusoid_block Real.pi Real.cos N f A p) fout (N : Int)
        = Outcome.returned out ∧
      out.cells[f]? = some Xf ∧ out.cells[N - f]? = some Xc ∧
      Real.sqrt (Xf.r ^ 2 + Xf.i ^ 2) = |A| * N / 2 ∧
      Real.sqrt (Xc.r ^ 2 + Xc.i ^ 2) = |A| * N / 2 ∧
      ∀ k : Nat, k < N → k ≠ f → k ≠ N - f → ∃ Xk : kiss_fft_cpx ℝ,
        out.cells[k]? = some Xk ∧ Xk.r = 0 ∧ Xk.i = 0 ∧
        Real.sqrt (Xk.r ^ 2 + Xk.i ^ 2) < Real.sqrt (Xf.r ^ 2 + Xf.i ^ 2) := by
  have hlen : (sinusoid_block Real.pi Real.cos N f A p).length = N := by simp [sinusoid_block]
  have htn : ((N : Int)).toNat = N := Int.toNat_natCast N
  obtain ⟨out, h1, -, -, h4⟩ :=
    kiss_fft_eq Real.pi Real.cos Real.sin (sinusoid_block Real.pi Real.cos N f A p) fout (N : Int)
      (by rw [htn, hlen]) (by rw [htn, hout])
  rw [htn] at h4
  have hpos : 0 < |A| * (N : ℝ) / 2 := by
    have h1 : 0 < |A| := abs_pos.mpr hA
    have h2 : (0 : ℝ) < N := by exact_mod_cast (by omega : 0 < N)
    positivity
  have hmagf : Real.sqrt
      ((∑ t in Finset.range N, term_re Real.pi Real.cos Real.sin
          (sinusoid_block Real.pi Real.cos N f A p) (N : Int) f t) ^ 2 +
       (∑ t in Finset.range N, term_im Real.pi Real.cos Real.sin
          (sinusoid_block Real.pi Real.cos N f A p) (N : Int) f t) ^ 2) = |A| * N / 2 := by
    rw [sqrt_sq_add_sq, sinusoid_bin_peak N f hf1 hf2 A p]
    simp only [map_mul, map_div₀, Complex.abs_ofReal, Complex.abs_exp_ofReal_mul_I,
      Complex.abs_natCast, Complex.abs_two]
    ring
  have hmagc : Real.sqrt
      ((∑ t in Finset.range N, term_re Real.pi Real.cos Real.sin
          (sinusoid_block Real.pi Real.cos N f A p) (N : Int) (N - f) t) ^ 2 +
       (∑ t in Finset.range N, term_im Real.pi Real.cos Real.sin
          (sinusoid_block Real.pi Real.cos N f A p) (N : Int) (N - f) t) ^ 2) = |A| * N / 2 := by
    rw [sqrt_sq_add_sq, sinusoid_bin_mirror N f hf1 hf2 A p]
    have he : Complex.abs (Complex.exp (-((p : ℂ) * Complex.I))) = 1 := by
      have : -((p : ℂ) * Complex.I) = ((-p : ℝ) : ℂ) * Complex.I := by push_cast; ring
      rw [this, Complex.abs_exp_ofReal_mul_I]
    simp only [map_mul, map_div₀, Complex.abs_ofReal, he, Complex.abs_natCast, Complex.abs_two]
    ring
  have hcf := h4 f
  rw [if_pos (by omega : f < N)] at hcf
  have hcc := h4 (N - f)
  rw [if_pos (by omega : N - f < N)] at hcc
  refine ⟨out, _, _, h1, hcf, hcc, hmagf, hmagc, ?_⟩
  intro k hk hkf hkc
  have hz := sinusoid_bin_other N f k hf1 hf2 hk hkf hkc A p
  have hre := congrArg Complex.re hz
  have him := congrArg Complex.im hz
  simp only [Complex.zero_re, Complex.zero_im] at hre him
  have hck := h4 k
  rw [if_pos hk] at hck
  refine ⟨_, hck, hre, him, ?_⟩
  rw [hmagf]
  show Real.sqrt
      ((∑ t in Finset.range N, term_re Real.pi Real.cos Real.sin
          (sinusoid_block Real.pi Real.cos N f A p) (N : Int) k t) ^ 2 +
       (∑ t in Finset.range N, term_im Real.pi Real.cos Real.sin
          (sinusoid_block Real.pi Real.cos N f A p) (N : Int) k t) ^ 2) < |A| * N / 2
  rw [hre, him]
  have h0 : Real.sqrt ((0 : ℝ) ^ 2 + 0 ^ 2) = 0 := by norm_num
  rw [h0]
  exact hpos

theorem kiss_fft_sinusoid_peaks_witness :
    (2 : Nat) ≤ 4 ∧ 1 ≤ 1 ∧ 2 * 1 < 4 ∧ (1 : ℝ) ≠ 0 ∧
    ∃ (out : OutBuf ℝ) (Xf Xc : kiss_fft_cpx ℝ),
      kiss_fft Real.pi Real.cos Real.sin (sinusoid_block Real.pi Real.cos 4 1 1 0)
        [⟨0, 0⟩, ⟨0, 0⟩, ⟨0, 0⟩, ⟨0, 0⟩] ((4 : Nat) : Int) = Outcome.returned out ∧
      out.cells[1]? = some Xf ∧ out.cells[4 - 1]? = some Xc ∧
      Real.sqrt (Xf.r ^ 2 + Xf.i ^ 2) = |(1 : ℝ)| * (4 : Nat) / 2 ∧
      Real.sqrt (Xc.r ^ 2 + Xc.i ^ 2) = |(1 : ℝ)| * (4 : Nat) / 2 ∧
      ∀ k : Nat, k < 4 → k ≠ 1 → k ≠ 4 - 1 → ∃ Xk : kiss_fft_cpx ℝ,
        out.cells[k]? = some Xk ∧ Xk.r = 0 ∧ Xk.i = 0 ∧
        Real.sqrt (Xk.r ^ 2 + Xk.i ^ 2) < Real.sqrt (Xf.r ^ 2 + Xf.i ^ 2) :=
  ⟨by decide, by decide, by decide, one_ne_zero,
    kiss_fft_sinusoid_peaks 4 1 (by decide) (by decide) (by decide) 1 0 one_ne_zero
      [⟨0, 0⟩, ⟨0, 0⟩, ⟨0, 0⟩, ⟨0, 0⟩] rfl⟩

/-! ## The transform on floating-point data, one sample -/

/-- With `n = 1` the call makes one pass of each loop: the bin is built from the first sample and
the angle `-2.0*PI*0*0/1`, in any arithmetic. -/
theorem kiss_fft_one_pass {α : Type} [Add α] [Sub α] [Mul α] [Div α] [Neg α] [NatCast α]
    [IntCast α] [OfScientific α] (PI : α) (cos sin : α → α) (x y : kiss_fft_cpx α) :
    kiss_fft PI cos sin [x] [y] 1 =
      Outcome.returned
        ⟨[⟨0.0 + (x.r * cos (-2.0 * PI * ((0 : Nat) : α) * ((0 : Nat) : α) / ((1 : Int) : α))
              - x.i * sin (-2.0 * PI * ((0 : Nat) : α) * ((0 : Nat) : α) / ((1 : Int) : α))),
           0.0 + (x.r * sin (-2.0 * PI * ((0 : Nat) : α) * ((0 : Nat) : α) / ((1 : Int) : α))
              + x.i * cos (-2.0 * PI * ((0 : Nat) : α) * ((0 : Nat) : α) / ((1 : Int) : α)))⟩],
         [(0, Component.re), (0, Component.im)]⟩ := by
  have hin : ∀ (sr si : α), kiss_fft_inner PI cos sin [x] 1 0 1 sr si
      = Outcome.returned (sr, si) := by
    intro sr si
    rw [kiss_fft_inner]
    simp
  have hout : ∀ b : OutBuf α, kiss_fft_outer PI cos sin [x] 1 1 b = Outcome.returned b := by
    intro b
    rw [kiss_fft_outer]
    simp
  unfold kiss_fft
  rw [kiss_fft_outer]
  simp only [Nat.cast_zero, zero_lt_one, if_true]
  rw [kiss_fft_inner]
  simp only [Nat.cast_zero, zero_lt_one, if_true, List.getElem?_cons_zero, zero_add, hin,
    OutBuf.store_r, OutBuf.store_i, List.set_cons_zero, hout]
  rfl

section ieee

variable {α : Type} [LinearOrderedField α]

theorem ieee_mul_def (x y : Ieee α) : x * y = Ieee.mul x y := rfl

theorem ieee_add_def (x y : Ieee α) : x + y = Ieee.add x y := rfl

theorem ieee_sub_def (x y : Ieee α) : x - y = Ieee.add x (Ieee.neg y) := rfl

theorem ieee_div_def (x y : Ieee α) : x / y = Ieee.div x y := rfl

theorem ieee_neg_def (x : Ieee α) : -x = Ieee.neg x := rfl

theorem ieee_natCast_def (k : Nat) : ((k : Nat) : Ieee α) = Ieee.num (k : α) := rfl

theorem ieee_intCast_def (n : Int) : ((n : Int) : Ieee α) = Ieee.num (n : α) := rfl

theorem ieee_ofScientific_def (m : Nat) (s : Bool) (e : Nat) :
    (OfScientific.ofScientific m s e : Ieee α) = Ieee.num (OfScientific.ofScientific m s e : α) :=
  rfl

theorem ieee_zero_lit : (0.0 : Ieee α) = Ieee.num 0 := by
  rw [ieee_ofScientific_def]
  congr 1
  norm_num

theorem ieee_neg_two_lit : (-2.0 : Ieee α) = Ieee.num (-2) := by
  have h2 : (2.0 : α) = 2 := by norm_num
  rw [ieee_neg_def, ieee_ofScientific_def, h2]
  simp [Ieee.neg]

theorem ieee_zero_of_finite (b : Bool) : (Ieee.zero_of b : Ieee α).isFinite = true := by
  cases b <;> rfl

/-- A finite datum times a zero is the zero whose sign is the exclusive or of the signs. -/
theorem ieee_mul_zero_of (a : Ieee α) (ha : a.isFinite = true) (b : Bool) :
    a * Ieee.zero_of b = Ieee.zero_of (xor a.isNeg b) := by
  cases a with
  | nan => simp [Ieee.isFinite] at ha
  | inf s => simp [Ieee.isFinite] at ha
  | negzero => cases b <;> simp [ieee_mul_def, Ieee.mul, Ieee.zero_of, Ieee.fval, Ieee.isNeg]
  | num v =>
    by_cases hv : v < 0 <;> cases b <;>
      simp [ieee_mul_def, Ieee.mul, Ieee.zero_of, Ieee.fval, Ieee.isNeg, hv]

/-- A zero divided by one is the same zero. -/
theorem ieee_zero_of_div_one (b : Bool) :
    Ieee.zero_of b / ((1 : Int) : Ieee α) = Ieee.zero_of b := by
  cases b <;>
    simp [ieee_div_def, ieee_intCast_def, Ieee.div, Ieee.zero_of, Ieee.fval, Ieee.isZero,
      Ieee.isNeg]

/-- A finite datum times one is itself. -/
theorem ieee_mul_one_finite (a : Ieee α) (ha : a.isFinite = true) : a * Ieee.num 1 = a := by
  cases a with
  | nan => simp [Ieee.isFinite] at ha
  | inf s => simp [Ieee.isFinite] at ha
  | negzero => simp [ieee_mul_def, Ieee.mul, Ieee.zero_of, Ieee.fval, Ieee.isNeg]
  | num v =>
    by_cases hv : v = 0
    · simp [ieee_mul_def, Ieee.mul, Ieee.zero_of, Ieee.fval, Ieee.isNeg, hv]
    · simp [ieee_mul_def, Ieee.mul, Ieee.zero_of, Ieee.fval, Ieee.isNeg, hv]

/-- Positive zero plus (a finite datum minus a zero) is the number the datum stands for. -/
theorem ieee_zero_add_sub_zero (a : Ieee α) (ha : a.isFinite = true) (b : Bool) :
    Ieee.num 0 + (a - Ieee.zero_of b) = Ieee.num a.fval := by
  cases a with
  | nan => simp [Ieee.isFinite] at ha
  | inf s => simp [Ieee.isFinite] at ha
  | negzero =>
    cases b <;> simp [ieee_add_def, ieee_sub_def, Ieee.add, Ieee.neg, Ieee.zero_of, Ieee.fval]
  | num v =>
    cases b <;> simp [ieee_add_def, ieee_sub_def, Ieee.add, Ieee.neg, Ieee.zero_of, Ieee.fval]

/-- Positive zero plus (a zero plus a finite datum) is the number the datum stands for. -/
theorem ieee_zero_add_zero_add (a : Ieee α) (ha : a.isFinite = true) (b : Bool) :
    Ieee.num 0 + (Ieee.zero_of b + a) = Ieee.num a.fval := by
  cases a with
  | nan => simp [Ieee.isFinite] at ha
  | inf s => simp [Ieee.isFinite] at ha
  | negzero => cases b <;> simp [ieee_add_def, Ieee.add, Ieee.zero_of, Ieee.fval]
  | num v => cases b <;> simp [ieee_add_def, Ieee.add, Ieee.zero_of, Ieee.fval]

/-- The angle of the one pass, `-2.0*PI*0*0/1`, is a zero when `PI` is finite. -/
theorem ieee_angle_zero (PI : Ieee α) (hPI : PI.isFinite = true) :
    ∃ b : Bool,
      -2.0 * PI * ((0 : Nat) : Ieee α) * ((0 : Nat) : Ieee α) / ((1 : Int) : Ieee α)
        = Ieee.zero_of b := by
  have h0 : ((0 : Nat) : Ieee α) = Ieee.zero_of false := by
    rw [ieee_natCast_def]
    simp [Ieee.zero_of]
  have hfin : ((-2.0 : Ieee α) * PI).isFinite = true := by
    rw [ieee_neg_two_lit]
    cases PI with
    | nan => simp [Ieee.isFinite] at hPI
    | inf s => simp [Ieee.isFinite] at hPI
    | negzero => simp [ieee_mul_def, Ieee.mul, Ieee.fval, ieee_zero_of_finite]
    | num p =>
      by_cases hp : p = 0
      · simp [ieee_mul_def, Ieee.mul, Ieee.fval, ieee_zero_of_finite, hp]
      · simp [ieee_mul_def, Ieee.mul, Ieee.fval, Ieee.isFinite, hp]
  rw [h0, ieee_mul_zero_of _ hfin false, ieee_mul_zero_of _ (ieee_zero_of_finite _) false,
    ieee_zero_of_div_one]
  exact ⟨_, rfl⟩

theorem ieee_lift_cos_zero_of (cos : α → α) (b : Bool) :
    Ieee.lift_cos cos (Ieee.zero_of b) = Ieee.num 1 := by
  cases b <;> simp [Ieee.lift_cos, Ieee.zero_of]

theorem ieee_lift_sin_zero_of (sin : α → α) (b : Bool) :
    Ieee.lift_sin sin (Ieee.zero_of b) = Ieee.zero_of b := by
  cases b <;> simp [Ieee.lift_sin, Ieee.zero_of]

/-- The one pass on floating-point data, with the angle and the two library values worked out:
the bin is `0.0 + (x.r*1 - x.i*z)`, `0.0 + (x.r*z + x.i*1)` for a zero `z`. -/
theorem kiss_fft_one_ieee (PI : Ieee α) (hPI : PI.isFinite = true) (cos sin : α → α)
    (x y : kiss_fft_cpx (Ieee α)) :
    ∃ b : Bool,
      kiss_fft PI (Ieee.lift_cos cos) (Ieee.lift_sin sin) [x] [y] 1 =
        Outcome.returned
          ⟨[⟨Ieee.num 0 + (x.r * Ieee.num 1 - x.i * Ieee.zero_of b),
             Ieee.num 0 + (x.r * Ieee.zero_of b + x.i * Ieee.num 1)⟩],
           [(0, Component.re), (0, Component.im)]⟩ := by
  obtain ⟨b, hb⟩ := ieee_angle_zero PI hPI
  refine ⟨b, ?_⟩
  rw [kiss_fft_one_pass, hb, ieee_lift_cos_zero_of, ieee_lift_sin_zero_of, ieee_zero_lit]

/-- C9, as stated, fails: with n = 1 the sample (+inf, 0) comes out as (+inf, NaN) and the
sample (1, +inf) comes out as (NaN, +inf), since the products inf·(-0.0) are not-a-number; in
neither case is the output the input. -/
theorem kiss_fft_single_sample_not_returned :
    kiss_fft (3.14159265358979323846 : Ieee ℝ) (Ieee.lift_cos Real.cos) (Ieee.lift_sin Real.sin)
        [⟨Ieee.inf false, Ieee.num 0⟩] [⟨Ieee.num 0, Ieee.num 0⟩] 1
      = Outcome.returned
          ⟨[⟨Ieee.inf false, Ieee.nan⟩], [(0, Component.re), (0, Component.im)]⟩ ∧
    kiss_fft (3.14159265358979323846 : Ieee ℝ) (Ieee.lift_cos Real.cos) (Ieee.lift_sin Real.sin)
        [⟨Ieee.num 1, Ieee.inf false⟩] [⟨Ieee.num 0, Ieee.num 0⟩] 1
      = Outcome.returned
          ⟨[⟨Ieee.nan, Ieee.inf false⟩], [(0, Component.re), (0, Component.im)]⟩ ∧
    (Ieee.nan : Ieee ℝ) ≠ Ieee.num 0 ∧ (Ieee.nan : Ieee ℝ) ≠ Ieee.num 1 := by
  have hb := ieee_angle_zero (3.14159265358979323846 : Ieee ℝ) rfl
  obtain ⟨b, hb⟩ := hb
  have hb' : b = true := by
    cases b with
    | true => rfl
    | false =>
      exfalso
      rw [ieee_neg_two_lit, ieee_ofScientific_def, ieee_natCast_def, ieee_intCast_def] at hb
      norm_num [ieee_mul_def, ieee_div_def, Ieee.mul, Ieee.div, Ieee.fval, Ieee.isNeg,
        Ieee.isZero, Ieee.zero_of] at hb
      cases hb
  subst hb'
  refine ⟨?_, ?_, by simp, by simp⟩
  · rw [kiss_fft_one_pass, hb, ieee_lift_cos_zero_of, ieee_lift_sin_zero_of, ieee_zero_lit]
    simp [ieee_mul_def, ieee_add_def, ieee_sub_def, Ieee.mul, Ieee.add, Ieee.neg, Ieee.fval,
      Ieee.isNeg, Ieee.isZero, Ieee.zero_of]
  · rw [kiss_fft_one_pass, hb, ieee_lift_cos_zero_of, ieee_lift_sin_zero_of, ieee_zero_lit]
    simp [ieee_mul_def, ieee_add_def, ieee_sub_def, Ieee.mul, Ieee.add, Ieee.neg, Ieee.fval,
      Ieee.isNeg, Ieee.isZero, Ieee.zero_of]

/-- C9, amended: for n = 1, a finite `PI` and every complex sample whose two parts are finite,
the call returns the one bin whose parts are the numbers the input parts stand for, so each part
of the output equals the part of the input, a negative zero coming out as positive zero. -/
theorem kiss_fft_single_finite_sample (PI : Ieee α) (hPI : PI.isFinite = true)
    (cos sin : α → α) (x y : kiss_fft_cpx (Ieee α)) (hr : x.r.isFinite = true)
    (hi : x.i.isFinite = true) :
    kiss_fft PI (Ieee.lift_cos cos) (Ieee.lift_sin sin) [x] [y] 1 =
        Outcome.returned
          ⟨[⟨Ieee.num x.r.fval, Ieee.num x.i.fval⟩], [(0, Component.re), (0, Component.im)]⟩ ∧
    (x.r ≠ Ieee.negzero → Ieee.num x.r.fval = x.r) ∧
    (x.i ≠ Ieee.negzero → Ieee.num x.i.fval = x.i) := by
  obtain ⟨b, hb⟩ := kiss_fft_one_ieee PI hPI cos sin x y
  refine ⟨?_, ?_, ?_⟩
  · rw [hb, ieee_mul_one_finite x.r hr, ieee_mul_one_finite x.i hi, ieee_mul_zero_of x.i hi b,
      ieee_mul_zero_of x.r hr b, ieee_zero_add_sub_zero x.r hr, ieee_zero_add_zero_add x.i hi]
  · intro hne
    cases hx : x.r with
    | nan => rw [hx] at hr; simp [Ieee.isFinite] at hr
    | inf s => rw [hx] at hr; simp [Ieee.isFinite] at hr
    | negzero => exact absurd hx hne
    | num v => rfl
  · intro hne
    cases hx : x.i with
    | nan => rw [hx] at hi; simp [Ieee.isFinite] at hi
    | inf s => rw [hx] at hi; simp [Ieee.isFinite] at hi
    | negzero => exact absurd hx hne
    | num v => rfl

end ieee

theorem kiss_fft_single_finite_sample_witness :
    (3.14159265358979323846 : Ieee ℚ).isFinite = true ∧
    (Ieee.num (-5 / 2) : Ieee ℚ).isFinite = true ∧ (Ieee.negzero : Ieee ℚ).isFinite = true ∧
    (kiss_fft (3.14159265358979323846 : Ieee ℚ) (Ieee.lift_cos (fun a => 1 - a * a / 2))
        (Ieee.lift_sin (fun a => a)) [⟨Ieee.num (-5 / 2), Ieee.negzero⟩]
        [⟨Ieee.num 7, Ieee.num 7⟩] 1 =
        Outcome.returned
          ⟨[⟨Ieee.num (Ieee.num (-5 / 2) : Ieee ℚ).fval, Ieee.num (Ieee.negzero : Ieee ℚ).fval⟩],
           [(0, Component.re), (0, Component.im)]⟩ ∧
    ((Ieee.num (-5 / 2) : Ieee ℚ) ≠ Ieee.negzero →
      Ieee.num (Ieee.num (-5 / 2) : Ieee ℚ).fval = (Ieee.num (-5 / 2) : Ieee ℚ)) ∧
    ((Ieee.negzero : Ieee ℚ) ≠ Ieee.negzero →
      Ieee.num (Ieee.negzero : Ieee ℚ).fval = (Ieee.negzero : Ieee ℚ))) :=
  ⟨rfl, rfl, rfl,
   kiss_fft_single_finite_sample (3.14159265358979323846 : Ieee ℚ) rfl
    (fun a => 1 - a * a / 2) (fun a => a) ⟨Ieee.num (-5 / 2), Ieee.negzero⟩
    ⟨Ieee.num 7, Ieee.num 7⟩ rfl rfl⟩


/-! ## Serialisation of a spectrum -/

theorem write_elems_from {α : Type} (fmt : α → String) (spectrum : List α) :
    ∀ (d i : Nat) (ofs : String), d + i = spectrum.length → 0 < i →
      write_elems fmt spectrum i ofs =
        (spectrum.drop i).foldl (fun acc v => acc ++ ", " ++ fmt v) ofs := by
  intro d
  induction d with
  | zero =>
    intro i ofs h _
    rw [write_elems]
    have hlt : ¬ (i < spectrum.length) := by omega
    rw [dif_neg hlt, List.drop_eq_nil_of_le (by omega)]
    rfl
  | succ d ih =>
    intro i ofs h hi
    rw [write_elems]
    have hlt : i < spectrum.length := by omega
    have hne : i ≠ 0 := by omega
    rw [dif_pos hlt, ih (i + 1) _ (by omega) (by omega), if_pos hne]
    conv_rhs => rw [List.drop_eq_getElem_cons hlt]
    rfl

theorem intercalate_cons (sep a : String) (l : List String) :
    String.intercalate sep (a :: l) = l.foldl (fun acc v => acc ++ sep ++ v) a := by
  have hgo : ∀ (l : List String) (acc : String),
      String.intercalate.go acc sep l = l.foldl (fun acc v => acc ++ sep ++ v) acc := by
    intro l
    induction l with
    | nil => intro acc; rfl
    | cons b l ih => intro acc; simp [String.intercalate.go, ih]
  simp [String.intercalate, hgo]

theorem foldl_append_left (sep : String) (l : List String) :
    ∀ (pre a : String),
      l.foldl (fun acc v => acc ++ sep ++ v) (pre ++ a)
        = pre ++ l.foldl (fun acc v => acc ++ sep ++ v) a := by
  induction l with
  | nil => intro pre a; rfl
  | cons b l ih =>
    intro pre a
    simp only [List.foldl_cons]
    rw [← ih pre (a ++ sep ++ b)]
    simp [String.append_assoc]

theorem write_elems_eq {α : Type} (fmt : α → String) (spectrum : List α) (ofs : String) :
    write_elems fmt spectrum 0 ofs = ofs ++ String.intercalate ", " (spectrum.map fmt) := by
  cases spectrum with
  | nil =>
    rw [write_elems]
    simp [String.intercalate]
  | cons x xs =>
    rw [write_elems]
    have hlt : 0 < (x :: xs).length := by simp
    rw [dif_pos hlt, write_elems_from fmt (x :: xs) xs.length 1 _ (by simp) (by omega)]
    simp only [ne_eq, not_true_eq_false, if_false, List.getElem_cons_zero, List.drop_succ_cons,
      List.drop_zero, List.map_cons, intercalate_cons, List.foldl_map]
    have h := foldl_append_left ", " (xs.map fmt) ofs (fmt x)
    rw [List.foldl_map, List.foldl_map] at h
    exact h


/-! ## The publisher -/

section publisher

variable {α : Type} [Field α] (openable : String → Bool) (sin : α → α) (fmt : α → String)

theorem inv_initial : Inv NativeDsp.initial := by
  left
  exact ⟨rfl, rfl, rfl⟩

theorem start_preserves_inv (s s' : NativeDsp) (jpath : jstring) (h : Inv s)
    (hs : Java_org_dspproject_caraudiodsp_AudioService_nativeStartSpectrum jpath s
      = Outcome.returned s') : Inv s' := by
  cases jpath with
  | none => simp [Java_org_dspproject_caraudiodsp_AudioService_nativeStartSpectrum,
      GetStringUTFChars] at hs
  | some path =>
    rcases h with ⟨hr, ht, hw⟩ | ⟨hr, w, ht, hw⟩
    · simp [Java_org_dspproject_caraudiodsp_AudioService_nativeStartSpectrum,
        GetStringUTFChars, hr, ht, hw] at hs
      subst hs
      right
      exact ⟨rfl, ⟨s.spawned, path, WorkerPc.at_test⟩, rfl, rfl⟩
    · simp [Java_org_dspproject_caraudiodsp_AudioService_nativeStartSpectrum,
        GetStringUTFChars, hr] at hs
      subst hs
      right
      exact ⟨hr, w, ht, hw⟩

theorem worker_step_stopped (tid : Nat) (s : NativeDsp) (hw : s.workers = []) :
    worker_step openable sin fmt tid s = s := by
  simp [worker_step, hw]

theorem worker_step_other (tid : Nat) (s : NativeDsp) (w : Worker) (hw : s.workers = [w])
    (hid : w.tid ≠ tid) : worker_step openable sin fmt tid s = s := by
  have hb : (w.tid == tid) = false := by simpa using hid
  simp [worker_step, hw, hb]

theorem worker_step_test_running (s : NativeDsp) (w : Worker) (hw : s.workers = [w])
    (hpc : w.pc = WorkerPc.at_test) (hr : s.spectrum_running = true) :
    worker_step openable sin fmt w.tid s =
      { s with workers := [⟨w.tid, w.path, WorkerPc.in_body⟩] } := by
  simp [worker_step, hw, hpc, hr, set_pc]

theorem worker_step_test_stopped (s : NativeDsp) (w : Worker) (hw : s.workers = [w])
    (hpc : w.pc = WorkerPc.at_test) (hr : s.spectrum_running = false) :
    worker_step openable sin fmt w.tid s = { s with workers := [] } := by
  simp [worker_step, hw, hpc, hr]

theorem worker_step_body (s : NativeDsp) (w : Worker) (hw : s.workers = [w])
    (hpc : w.pc = WorkerPc.in_body) :
    worker_step openable sin fmt w.tid s =
      { s with
        sink_writes := spectrum_loop_body openable sin fmt w.path s.sink_writes,
        workers := [⟨w.tid, w.path, WorkerPc.at_test⟩] } := by
  simp [worker_step, hw, hpc, set_pc]

theorem worker_step_preserves_inv (tid : Nat) (s : NativeDsp) (h : Inv s) :
    Inv (worker_step openable sin fmt tid s) := by
  rcases h with ⟨hr, ht, hw⟩ | ⟨hr, w, ht, hw⟩
  · rw [worker_step_stopped openable sin fmt tid s hw]
    left
    exact ⟨hr, ht, hw⟩
  · right
    by_cases hid : w.tid = tid
    · subst hid
      cases hpc : w.pc with
      | at_test =>
        rw [worker_step_test_running openable sin fmt s w hw hpc hr]
        exact ⟨hr, ⟨w.tid, w.path, WorkerPc.in_body⟩, ht, rfl⟩
      | in_body =>
        rw [worker_step_body openable sin fmt s w hw hpc]
        exact ⟨hr, ⟨w.tid, w.path, WorkerPc.at_test⟩, ht, rfl⟩
    · rw [worker_step_other openable sin fmt tid s w hw hid]
      exact ⟨hr, w, ht, hw⟩

theorem join_done (fuel : Nat) (t : NativeDsp) (tid : Nat) (h1 : t.spectrum_thread = some tid)
    (h2 : t.workers = []) :
    join openable sin fmt fuel t = some { t with spectrum_thread := none } := by
  cases fuel <;> simp [join, h1, h2]

theorem join_live (fuel : Nat) (t : NativeDsp) (v : Worker)
    (h1 : t.spectrum_thread = some v.tid) (h2 : t.workers = [v]) :
    join openable sin fmt (fuel + 1) t
      = join openable sin fmt fuel (worker_step openable sin fmt v.tid t) := by
  simp [join, h1, h2]

theorem join_zero_live (t : NativeDsp) (v : Worker)
    (h1 : t.spectrum_thread = some v.tid) (h2 : t.workers = [v]) :
    join openable sin fmt 0 t = none := by
  simp [join, h1, h2]

theorem join_from_test (fuel : Nat) (s : NativeDsp) (w : Worker)
    (hr : s.spectrum_running = false) (ht : s.spectrum_thread = some w.tid)
    (hw : s.workers = [w]) (hpc : w.pc = WorkerPc.at_test) :
    join openable sin fmt (fuel + 1) s
      = some { s with workers := [], spectrum_thread := none } := by
  rw [join_live openable sin fmt fuel s w ht hw,
    worker_step_test_stopped openable sin fmt s w hw hpc hr]
  exact join_done openable sin fmt fuel { s with workers := [] } w.tid ht rfl

theorem join_from_body (fuel : Nat) (s : NativeDsp) (w : Worker)
    (hr : s.spectrum_running = false) (ht : s.spectrum_thread = some w.tid)
    (hw : s.workers = [w]) (hpc : w.pc = WorkerPc.in_body) :
    join openable sin fmt (fuel + 2) s
      = some { s with
          sink_writes := spectrum_loop_body openable sin fmt w.path s.sink_writes,
          workers := [], spectrum_thread := none } := by
  rw [join_live openable sin fmt (fuel + 1) s w ht hw,
    worker_step_body openable sin fmt s w hw hpc]
  exact join_from_test openable sin fmt fuel
    { s with
      sink_writes := spectrum_loop_body openable sin fmt w.path s.sink_writes,
      workers := [⟨w.tid, w.path, WorkerPc.at_test⟩] }
    ⟨w.tid, w.path, WorkerPc.at_test⟩ hr ht rfl rfl

theorem join_one_from_body (s : NativeDsp) (w : Worker)
    (ht : s.spectrum_thread = some w.tid)
    (hw : s.workers = [w]) (hpc : w.pc = WorkerPc.in_body) :
    join openable sin fmt 1 s = none := by
  rw [join_live openable sin fmt 0 s w ht hw, worker_step_body openable sin fmt s w hw hpc]
  exact join_zero_live openable sin fmt
    { s with
      sink_writes := spectrum_loop_body openable sin fmt w.path s.sink_writes,
      workers := [⟨w.tid, w.path, WorkerPc.at_test⟩] }
    ⟨w.tid, w.path, WorkerPc.at_test⟩ ht rfl

/-- Joining the one live worker once the flag is cleared: the call returns when given fuel for
the worker's remaining steps, and whenever it returns the thread is gone. -/
theorem join_after_clear (s : NativeDsp) (w : Worker) (hr : s.spectrum_running = false)
    (ht : s.spectrum_thread = some w.tid) (hw : s.workers = [w]) :
    (∀ fuel : Nat, 2 ≤ fuel → ∃ s', join openable sin fmt fuel s = some s') ∧
    (∀ (fuel : Nat) (s' : NativeDsp), join openable sin fmt fuel s = some s' →
      s'.spectrum_running = false ∧ s'.spectrum_thread = none ∧ s'.workers = []) := by
  cases hpc : w.pc with
  | at_test =>
    constructor
    · intro fuel hf
      obtain ⟨f, rfl⟩ : ∃ f, fuel = f + 1 := ⟨fuel - 1, by omega⟩
      exact ⟨_, join_from_test openable sin fmt f s w hr ht hw hpc⟩
    · intro fuel s' hj
      cases fuel with
      | zero => rw [join_zero_live openable sin fmt s w ht hw] at hj; cases hj
      | succ f =>
        rw [join_from_test openable sin fmt f s w hr ht hw hpc] at hj
        cases hj
        exact ⟨hr, rfl, rfl⟩
  | in_body =>
    constructor
    · intro fuel hf
      obtain ⟨f, rfl⟩ : ∃ f, fuel = f + 2 := ⟨fuel - 2, by omega⟩
      exact ⟨_, join_from_body openable sin fmt f s w hr ht hw hpc⟩
    · intro fuel s' hj
      cases fuel with
      | zero => rw [join_zero_live openable sin fmt s w ht hw] at hj; cases hj
      | succ f =>
        cases f with
        | zero => rw [join_one_from_body openable sin fmt s w ht hw hpc] at hj; cases hj
        | succ g =>
          rw [join_from_body openable sin fmt g s w hr ht hw hpc] at hj
          cases hj
          exact ⟨hr, rfl, rfl⟩


theorem stop_when_stopped (fuel : Nat) (s : NativeDsp) (hr : s.spectrum_running = false) :
    Java_org_dspproject_caraudiodsp_AudioService_nativeStopSpectrum openable sin fmt fuel s
      = some s := by
  simp [Java_org_dspproject_caraudiodsp_AudioService_nativeStopSpectrum, hr]

theorem destroy_when_stopped (fuel : Nat) (s : NativeDsp) (hr : s.spectrum_running = false) :
    Java_org_dspproject_caraudiodsp_AudioService_nativeDestroy openable sin fmt fuel s
      = some s := by
  simp [Java_org_dspproject_caraudiodsp_AudioService_nativeDestroy, hr]

theorem stop_when_running (fuel : Nat) (s : NativeDsp) (w : Worker)
    (hr : s.spectrum_running = true) (ht : s.spectrum_thread = some w.tid) :
    Java_org_dspproject_caraudiodsp_AudioService_nativeStopSpectrum openable sin fmt fuel s
      = join openable sin fmt fuel { s with spectrum_running := false } := by
  simp [Java_org_dspproject_caraudiodsp_AudioService_nativeStopSpectrum, hr, ht]

theorem destroy_when_running (fuel : Nat) (s : NativeDsp) (w : Worker)
    (hr : s.spectrum_running = true) (ht : s.spectrum_thread = some w.tid) :
    Java_org_dspproject_caraudiodsp_AudioService_nativeDestroy openable sin fmt fuel s
      = join openable sin fmt fuel { s with spectrum_running := false } := by
  simp [Java_org_dspproject_caraudiodsp_AudioService_nativeDestroy, hr, ht]

theorem stop_preserves_inv (fuel : Nat) (s s' : NativeDsp) (h : Inv s)
    (hs : Java_org_dspproject_caraudiodsp_AudioService_nativeStopSpectrum openable sin fmt fuel s
      = some s') : Inv s' := by
  rcases h with ⟨hr, ht, hw⟩ | ⟨hr, w, ht, hw⟩
  · rw [stop_when_stopped openable sin fmt fuel s hr] at hs
    cases hs
    exact Or.inl ⟨hr, ht, hw⟩
  · rw [stop_when_running openable sin fmt fuel s w hr ht] at hs
    exact Or.inl ((join_after_clear openable sin fmt { s with spectrum_running := false } w
      rfl ht hw).2 fuel s' hs)

theorem destroy_preserves_inv (fuel : Nat) (s s' : NativeDsp) (h : Inv s)
    (hs : Java_org_dspproject_caraudiodsp_AudioService_nativeDestroy openable sin fmt fuel s
      = some s') : Inv s' := by
  rcases h with ⟨hr, ht, hw⟩ | ⟨hr, w, ht, hw⟩
  · rw [destroy_when_stopped openable sin fmt fuel s hr] at hs
    cases hs
    exact Or.inl ⟨hr, ht, hw⟩
  · rw [destroy_when_running openable sin fmt fuel s w hr ht] at hs
    exact Or.inl ((join_after_clear openable sin fmt { s with spectrum_running := false } w
      rfl ht hw).2 fuel s' hs)

theorem reachable_inv (s : NativeDsp) (h : Reachable openable sin fmt s) : Inv s := by
  induction h with
  | init => exact inv_initial
  | start s s' jpath _ hs ih => exact start_preserves_inv s s' jpath ih hs
  | stop s s' fuel _ hs ih => exact stop_preserves_inv openable sin fmt fuel s s' ih hs
  | destroy s s' fuel _ hs ih => exact destroy_preserves_inv openable sin fmt fuel s s' ih hs
  | worker s tid _ ih => exact worker_step_preserves_inv openable sin fmt tid s ih

theorem start_when_running (path : String) (s : NativeDsp) (hr : s.spectrum_running = true) :
    Java_org_dspproject_caraudiodsp_AudioService_nativeStartSpectrum (some path) s
      = Outcome.returned s := by
  simp [Java_org_dspproject_caraudiodsp_AudioService_nativeStartSpectrum, GetStringUTFChars, hr]

theorem start_when_stopped (path : String) (s : NativeDsp) (hr : s.spectrum_running = false)
    (ht : s.spectrum_thread = none) :
    Java_org_dspproject_caraudiodsp_AudioService_nativeStartSpectrum (some path) s
      = Outcome.returned
          { s with
            spectrum_running := true,
            spectrum_thread := some s.spawned,
            workers := s.workers ++ [⟨s.spawned, path, WorkerPc.at_test⟩],
            spawned := s.spawned + 1 } := by
  simp [Java_org_dspproject_caraudiodsp_AudioService_nativeStartSpectrum, GetStringUTFChars, hr,
    ht]

theorem quiet_after_stop (s t : NativeDsp) (hr : s.spectrum_running = false)
    (hw : s.workers = []) (hq : QuietSteps openable sin fmt s t) :
    t.spectrum_running = false ∧ t.workers = [] ∧ t.sink_writes = s.sink_writes := by
  induction hq with
  | refl => exact ⟨hr, hw, rfl⟩
  | stop t t' fuel _ hs ih =>
    rw [stop_when_stopped openable sin fmt fuel t ih.1] at hs
    cases hs
    exact ih
  | destroy t t' fuel _ hs ih =>
    rw [destroy_when_stopped openable sin fmt fuel t ih.1] at hs
    cases hs
    exact ih
  | worker t tid _ ih =>
    rw [worker_step_stopped openable sin fmt tid t ih.2.1]
    exact ih


theorem fill_spec_eq :
    ∀ (d i : Nat) (spec : List α), d + i = spec.length →
      (fill_spec sin spec i).length = spec.length ∧
      ∀ j : Nat, (fill_spec sin spec i)[j]? =
        if i ≤ j ∧ j < spec.length then some (sin ((j : α) * 0.1) * 0.5 + 0.5) else spec[j]? := by
  intro d
  induction d with
  | zero =>
    intro i spec h
    rw [fill_spec]
    have hlt : ¬ (i < spec.length) := by omega
    rw [if_neg hlt]
    refine ⟨rfl, fun j => ?_⟩
    rw [if_neg (by omega)]
  | succ d ih =>
    intro i spec h
    rw [fill_spec]
    have hlt : i < spec.length := by omega
    rw [if_pos hlt]
    obtain ⟨h1, h2⟩ := ih (i + 1) (spec.set i (sin ((i : α) * 0.1) * 0.5 + 0.5))
      (by rw [List.length_set]; omega)
    rw [List.length_set] at h1 h2
    refine ⟨h1, fun j => ?_⟩
    rw [h2 j]
    by_cases hji : j = i
    · subst hji
      rw [if_neg (by omega), if_pos ⟨le_refl j, hlt⟩]
      simp [hlt]
    · by_cases hj : i + 1 ≤ j ∧ j < spec.length
      · rw [if_pos hj, if_pos (by omega)]
      · rw [if_neg hj, if_neg (by omega)]
        have hij : i ≠ j := fun e => hji e.symm
        simp [List.getElem?_set_ne hij]

theorem fill_spec_values :
    fill_spec sin (List.replicate 128 (0.0 : α)) 0 =
      (List.range 128).map (fun i : Nat => sin ((i : α) * 0.1) * 0.5 + 0.5) := by
  obtain ⟨-, h2⟩ := fill_spec_eq sin 128 0 (List.replicate 128 (0.0 : α)) (by simp)
  apply List.ext_getElem?
  intro j
  rw [h2 j, List.length_replicate]
  by_cases hj : j < 128
  · rw [if_pos ⟨Nat.zero_le j, hj⟩, List.getElem?_map, List.getElem?_range hj]
    rfl
  · rw [if_neg (fun h => hj h.2)]
    have h1 : (List.replicate 128 (0.0 : α)).length ≤ j := by simp; omega
    have h3 : ((List.range 128).map (fun i : Nat => sin ((i : α) * 0.1) * 0.5 + 0.5)).length ≤ j
        := by simp; omega
    rw [List.getElem?_eq_none h1, List.getElem?_eq_none h3]

/-- C5: in every state reachable by start / stop / destroy calls interleaved with worker steps,
at most one worker is active, the running flag is true exactly when the thread handle owns the one
live worker (and when it is false there is no handle and no worker), a start while running returns
the state unchanged whatever the new path, and two starts in succession leave exactly one active
worker. -/
theorem publisher_single_worker (s : NativeDsp) (h : Reachable openable sin fmt s) :
    s.workers.length ≤ 1 ∧
    (s.spectrum_running = true ↔
      ∃ w : Worker, s.spectrum_thread = some w.tid ∧ s.workers = [w]) ∧
    (s.spectrum_running = false → s.spectrum_thread = none ∧ s.workers = []) ∧
    (s.spectrum_running = true → ∀ path : String,
      Java_org_dspproject_caraudiodsp_AudioService_nativeStartSpectrum (some path) s
        = Outcome.returned s) ∧
    (∀ p1 p2 : String, ∃ s1 : NativeDsp,
      Java_org_dspproject_caraudiodsp_AudioService_nativeStartSpectrum (some p1) s
        = Outcome.returned s1 ∧
      Java_org_dspproject_caraudiodsp_AudioService_nativeStartSpectrum (some p2) s1
        = Outcome.returned s1 ∧
      s1.spectrum_running = true ∧ s1.workers.length = 1) := by
  have hinv := reachable_inv openable sin fmt s h
  rcases hinv with ⟨hr, ht, hw⟩ | ⟨hr, w, ht, hw⟩
  · refine ⟨by simp [hw], ?_, fun _ => ⟨ht, hw⟩, ?_, ?_⟩
    · constructor
      · intro h'
        rw [hr] at h'
        cases h'
      · rintro ⟨w, _, h2⟩
        rw [hw] at h2
        cases h2
    · intro h'
      rw [hr] at h'
      cases h'
    · intro p1 p2
      refine ⟨_, start_when_stopped p1 s hr ht, start_when_running p2 _ rfl, rfl, ?_⟩
      simp [hw]
  · refine ⟨by simp [hw], ⟨fun _ => ⟨w, ht, hw⟩, fun _ => hr⟩, ?_,
      fun _ path => start_when_running path s hr, ?_⟩
    · intro h'
      rw [hr] at h'
      cases h'
    · intro p1 p2
      exact ⟨s, start_when_running p1 s hr, start_when_running p2 s hr, hr, by simp [hw]⟩

theorem publisher_single_worker_witness :
    Reachable (fun _ => true) (fun a : ℚ => a) (fun _ => "0")
      ⟨true, some 0, [⟨0, "/data/spectrum.json", WorkerPc.at_test⟩], 1, []⟩ ∧
    (([⟨0, "/data/spectrum.json", WorkerPc.at_test⟩] : List Worker).length ≤ 1 ∧
    ((⟨true, some 0, [⟨0, "/data/spectrum.json", WorkerPc.at_test⟩], 1, []⟩
        : NativeDsp).spectrum_running = true ↔
      ∃ w : Worker,
        (⟨true, some 0, [⟨0, "/data/spectrum.json", WorkerPc.at_test⟩], 1, []⟩
          : NativeDsp).spectrum_thread = some w.tid ∧
        (⟨true, some 0, [⟨0, "/data/spectrum.json", WorkerPc.at_test⟩], 1, []⟩
          : NativeDsp).workers = [w]) ∧
    ((⟨true, some 0, [⟨0, "/data/spectrum.json", WorkerPc.at_test⟩], 1, []⟩
        : NativeDsp).spectrum_running = false →
      (⟨true, some 0, [⟨0, "/data/spectrum.json", WorkerPc.at_test⟩], 1, []⟩
        : NativeDsp).spectrum_thread = none ∧
      (⟨true, some 0, [⟨0, "/data/spectrum.json", WorkerPc.at_test⟩], 1, []⟩
        : NativeDsp).workers = []) ∧
    ((⟨true, some 0, [⟨0, "/data/spectrum.json", WorkerPc.at_test⟩], 1, []⟩
        : NativeDsp).spectrum_running = true → ∀ path : String,
      Java_org_dspproject_caraudiodsp_AudioService_nativeStartSpectrum (some path)
        ⟨true, some 0, [⟨0, "/data/spectrum.json", WorkerPc.at_test⟩], 1, []⟩
        = Outcome.returned
            ⟨true, some 0, [⟨0, "/data/spectrum.json", WorkerPc.at_test⟩], 1, []⟩) ∧
    (∀ p1 p2 : String, ∃ s1 : NativeDsp,
      Java_org_dspproject_caraudiodsp_AudioService_nativeStartSpectrum (some p1)
        ⟨true, some 0, [⟨0, "/data/spectrum.json", WorkerPc.at_test⟩], 1, []⟩
        = Outcome.returned s1 ∧
      Java_org_dspproject_caraudiodsp_AudioService_nativeStartSpectrum (some p2) s1
        = Outcome.returned s1 ∧
      s1.spectrum_running = true ∧ s1.workers.length = 1)) :=
  ⟨Reachable.start NativeDsp.initial _ (some "/data/spectrum.json") Reachable.init rfl,
   publisher_single_worker (fun _ => true) (fun a : ℚ => a) (fun _ => "0")
    ⟨true, some 0, [⟨0, "/data/spectrum.json", WorkerPc.at_test⟩], 1, []⟩
    (Reachable.start NativeDsp.initial _ (some "/data/spectrum.json") Reachable.init rfl)⟩

/-- C6: stop is a no-op on every stopped state; from a reachable running state, given fuel for
the worker's at most two remaining steps, stop returns with the flag cleared, no joinable handle
and no worker, and no later stop, destroy or worker step adds a sink write. -/
theorem stop_joins_worker (s : NativeDsp) (h : Reachable openable sin fmt s) (fuel : Nat)
    (hf : 2 ≤ fuel) :
    (∀ (t : NativeDsp) (g : Nat), t.spectrum_running = false →
      Java_org_dspproject_caraudiodsp_AudioService_nativeStopSpectrum openable sin fmt g t
        = some t) ∧
    (s.spectrum_running = true → ∃ s' : NativeDsp,
      Java_org_dspproject_caraudiodsp_AudioService_nativeStopSpectrum openable sin fmt fuel s
        = some s' ∧
      s'.spectrum_running = false ∧ s'.spectrum_thread = none ∧ s'.workers = [] ∧
      ∀ t : NativeDsp, QuietSteps openable sin fmt s' t →
        t.sink_writes = s'.sink_writes ∧ t.workers = [] ∧ t.spectrum_running = false) := by
  refine ⟨fun t g ht => stop_when_stopped openable sin fmt g t ht, ?_⟩
  intro hr
  rcases reachable_inv openable sin fmt s h with ⟨hr', _, _⟩ | ⟨_, w, ht, hw⟩
  · rw [hr] at hr'
    cases hr'
  · obtain ⟨s', hs'⟩ := (join_after_clear openable sin fmt { s with spectrum_running := false } w
      rfl ht hw).1 fuel hf
    obtain ⟨h1, h2, h3⟩ := (join_after_clear openable sin fmt
      { s with spectrum_running := false } w rfl ht hw).2 fuel s' hs'
    refine ⟨s', ?_, h1, h2, h3, ?_⟩
    · rw [stop_when_running openable sin fmt fuel s w hr ht]
      exact hs'
    · intro t hq
      obtain ⟨q1, q2, q3⟩ := quiet_after_stop openable sin fmt s' t h1 h3 hq
      exact ⟨q3, q2, q1⟩


theorem stop_joins_worker_witness :
    Reachable (fun _ => true) (fun a : ℚ => a) (fun _ => "0")
      ⟨true, some 0, [⟨0, "/data/spectrum.json", WorkerPc.at_test⟩], 1, []⟩ ∧
    2 ≤ 2 ∧
    ((∀ (t : NativeDsp) (g : Nat), t.spectrum_running = false →
      Java_org_dspproject_caraudiodsp_AudioService_nativeStopSpectrum
        (fun _ => true) (fun a : ℚ => a) (fun _ => "0") g t = some t) ∧
    ((⟨true, some 0, [⟨0, "/data/spectrum.json", WorkerPc.at_test⟩], 1, []⟩
        : NativeDsp).spectrum_running = true → ∃ s' : NativeDsp,
      Java_org_dspproject_caraudiodsp_AudioService_nativeStopSpectrum
        (fun _ => true) (fun a : ℚ => a) (fun _ => "0") 2
        ⟨true, some 0, [⟨0, "/data/spectrum.json", WorkerPc.at_test⟩], 1, []⟩ = some s' ∧
      s'.spectrum_running = false ∧ s'.spectrum_thread = none ∧ s'.workers = [] ∧
      ∀ t : NativeDsp, QuietSteps (fun _ => true) (fun a : ℚ => a) (fun _ => "0") s' t →
        t.sink_writes = s'.sink_writes ∧ t.workers = [] ∧ t.spectrum_running = false)) :=
  ⟨Reachable.start NativeDsp.initial _ (some "/data/spectrum.json") Reachable.init rfl,
   le_refl 2,
   stop_joins_worker (fun _ => true) (fun a : ℚ => a) (fun _ => "0")
    ⟨true, some 0, [⟨0, "/data/spectrum.json", WorkerPc.at_test⟩], 1, []⟩
    (Reachable.start NativeDsp.initial _ (some "/data/spectrum.json") Reachable.init rfl)
    2 (le_refl 2)⟩

end publisher

/-! ## The control boundary and the sink content -/

/-- C7: with a null string, nativeSetInputMode, nativeStartSpectrum and nativeLoadPresetFile pass
the reference to GetStringUTFChars without a null check and do not return normally, while
dsp_apply_state_json tests for null first and returns without touching the engine. -/
theorem null_string_arguments :
    Java_org_dspproject_caraudiodsp_AudioService_nativeSetInputMode none = Outcome.abnormal ∧
    (∀ s : NativeDsp,
      Java_org_dspproject_caraudiodsp_AudioService_nativeStartSpectrum none s
        = Outcome.abnormal) ∧
    Java_org_dspproject_caraudiodsp_AudioService_nativeLoadPresetFile none = Outcome.abnormal ∧
    (∀ (σ : Type) (dsp_apply_state_json : String → σ → σ) (engine : σ),
      Java_com_example_dspa_DSPController_dsp_1apply_1state_1json dsp_apply_state_json none engine
        = Outcome.returned engine) :=
  ⟨rfl, fun _ => rfl, rfl, fun _ _ _ => rfl⟩

/-- C8: one pass of the loop body for a worker whose sink opens appends exactly one write to that
sink, of the text `{ "spectrum": [` + the 128 formatted values joined by `, ` + `] }` + newline,
where value i is sin(i·0.1)·0.5 + 0.5, in index order, each within [0, 1]. -/
theorem spectrum_tick_content (openable : String → Bool) (fmt : ℝ → String) (s : NativeDsp)
    (tid : Nat) (w : Worker) (hfind : s.workers.find? (fun v => v.tid == tid) = some w)
    (hpc : w.pc = WorkerPc.in_body) (hop : openable w.path = true) :
    ∃ vs : List ℝ,
      vs.length = 128 ∧
      (∀ i : Nat, i < 128 → vs[i]? = some (Real.sin ((i : ℝ) * 0.1) * 0.5 + 0.5)) ∧
      (∀ v ∈ vs, 0 ≤ v ∧ v ≤ 1) ∧
      (worker_step openable Real.sin fmt tid s).sink_writes =
        s.sink_writes ++
          [(w.path, "\x7b \"spectrum\": [" ++ String.intercalate ", " (vs.map fmt) ++ "] \x7d\n")]
    := by
  refine ⟨(List.range 128).map (fun i : Nat => Real.sin ((i : ℝ) * 0.1) * 0.5 + 0.5), by simp,
    ?_, ?_, ?_⟩
  · intro i hi
    rw [List.getElem?_map, List.getElem?_range hi]
    rfl
  · intro v hv
    rw [List.mem_map] at hv
    obtain ⟨i, -, rfl⟩ := hv
    have h1 := Real.neg_one_le_sin ((i : ℝ) * 0.1)
    have h2 := Real.sin_le_one ((i : ℝ) * 0.1)
    constructor <;> norm_num <;> linarith
  · simp only [worker_step, hfind, hpc, spectrum_loop_body, write_spectrum_json, hop, if_true,
      fill_spec_values, write_elems_eq]

theorem spectrum_tick_content_witness :
    ([⟨0, "/data/spectrum.json", WorkerPc.in_body⟩] : List Worker).find? (fun v => v.tid == 0)
      = some ⟨0, "/data/spectrum.json", WorkerPc.in_body⟩ ∧
    ∃ vs : List ℝ,
      vs.length = 128 ∧
      (∀ i : Nat, i < 128 → vs[i]? = some (Real.sin ((i : ℝ) * 0.1) * 0.5 + 0.5)) ∧
      (∀ v ∈ vs, 0 ≤ v ∧ v ≤ 1) ∧
      (worker_step (fun _ => true) Real.sin (fun _ => "0.5") 0
          ⟨true, some 0, [⟨0, "/data/spectrum.json", WorkerPc.in_body⟩], 1, []⟩).sink_writes =
        [] ++ [("/data/spectrum.json",
          "\x7b \"spectrum\": [" ++ String.intercalate ", " (vs.map (fun _ => "0.5"))
            ++ "] \x7d\n")] :=
  ⟨rfl, spectrum_tick_content (fun _ => true) (fun _ => "0.5")
    ⟨true, some 0, [⟨0, "/data/spectrum.json", WorkerPc.in_body⟩], 1, []⟩ 0
    ⟨0, "/data/spectrum.json", WorkerPc.in_body⟩ rfl rfl rfl⟩


end DspProto
